import Mathlib

/-!
Verification of the addressli core pipeline: a shallow embedding of the
geocoding client (`src/utils/geocoding.ts`), the row processor and progress
helpers (`src/utils/addressProcessing.ts`), the batch driver
(`App.tsx`, `handleStartProcessing` / `handleCancelProcessing`), the column
auto-detector and failure exporter (`src/utils/csvParser.ts`), and the
feature-collection assembler (`src/utils/jsonExport.ts`), together with
theorems about the behaviour of these functions.

Modelling conventions:
* JavaScript strings are Lean `String`s; JS numbers that carry coordinate or
  property values are modelled as `Rat` (no claim performs float arithmetic).
* A CSV row (a JS object mapping column names to cell strings) is an
  association list `List (String × String)`; JS property read `row[c]` is
  `lookupKey`, JS property write `obj[c] = v` is `setKey` (replace-or-append,
  as JS assignment keeps the original key position).
* The network is an oracle `net : String → FetchOutcome` describing, per
  address, what the single `fetch` of `geocodeAddress` would produce.
* Asynchronous effects are made explicit: functions return their value
  together with the number of network calls issued and the milliseconds of
  rate-limit delay awaited.
-/

set_option autoImplicit false

/-- A CSV data row: an ordered association of column name to cell value,
modelling the JS object produced by the CSV parser. -/
abbrev CSVRow := List (String × String)

/-- JS object property read `obj[k]`: first binding of key `k`, if any. -/
def lookupKey {β : Type} : List (String × β) → String → Option β
  | [], _ => none
  | (k, v) :: t, c => if k = c then some v else lookupKey t c

/-- JS object property write `obj[k] = v`: replace the first binding of `k`
in place, or append a fresh binding at the end. -/
def setKey {β : Type} : List (String × β) → String → β → List (String × β)
  | [], k, v => [(k, v)]
  | (k', v') :: t, k, v => if k' = k then (k, v) :: t else (k', v') :: setKey t k v

/-- The user-edited column mapping (`ColumnMapping` in `types/index.ts`). -/
structure ColumnMapping where
  zipCode : Option String := none
  street : Option String := none
  city : Option String := none
  country : Option String := none
  metadataColumns : List String := []
  deriving Repr, DecidableEq

/-- Structured address components of a Nominatim result
(`AddressData` in `types/index.ts`); every field is best-effort optional. -/
structure AddressData where
  road : Option String := none
  house_number : Option String := none
  postcode : Option String := none
  city : Option String := none
  town : Option String := none
  village : Option String := none
  municipality : Option String := none
  suburb : Option String := none
  county : Option String := none
  state : Option String := none
  country : Option String := none
  deriving Repr, DecidableEq

/-- A parsed geocoding result (`GeocodeResult` in `types/index.ts`). -/
structure GeocodeResult where
  lat : Rat
  lon : Rat
  display_name : Option String := none
  address : Option AddressData := none
  deriving Repr, DecidableEq

/-- The outcome record of processing one row
(`ProcessedAddress` in `types/index.ts`). -/
structure ProcessedAddress where
  originalData : CSVRow
  geocodeResult : Option GeocodeResult := none
  coordinates : Option (Rat × Rat) := none
  error : Option String := none
  deriving Repr, DecidableEq

/-- Progress counters (`ProcessingProgress` in `types/index.ts`). -/
structure ProcessingProgress where
  total : Nat
  processed : Nat
  successful : Nat
  failed : Nat
  deriving Repr, DecidableEq

/-- JS truthiness of an optional string: `undefined` and `""` are falsy. -/
def strTruthy : Option String → Bool
  | none => false
  | some s => s ≠ ""

/-! ## Geocoding client (`src/utils/geocoding.ts`) -/

/-- `RATE_LIMIT_DELAY` from `geocoding.ts`: milliseconds awaited after every
`geocodeAddress` call inside `geocodeAddressWithRateLimit`. -/
def RATE_LIMIT_DELAY : Nat := 1000

/-- One raw item of the Nominatim JSON response array: string latitude and
longitude plus optional display name and address breakdown. -/
structure RawResult where
  lat : String
  lon : String
  display_name : Option String := none
  address : Option AddressData := none
  deriving Repr, DecidableEq

/-- What the single `fetch` inside `geocodeAddress` does for a given address:
a successful JSON array, a non-success HTTP status (the code then throws and
catches `HTTP error! status: ...`), or a network/parse exception with the
given message. -/
inductive FetchOutcome where
  | ok (data : List RawResult)
  | httpError (status : Nat)
  | exception (msg : String)
  deriving Repr, DecidableEq

/-- Model of JS `String.prototype.trim` (restricted to ASCII whitespace):
drop whitespace characters from both ends. Defined by structural recursion
over the character list so that the kernel can evaluate it on literals. -/
def String.jsTrim (s : String) : String :=
  ⟨((s.data.dropWhile Char.isWhitespace).reverse.dropWhile
      Char.isWhitespace).reverse⟩

/-- Model of JS `String.prototype.toLowerCase` (ASCII case folding). -/
def String.jsToLower (s : String) : String :=
  ⟨s.data.map Char.toLower⟩

/-- JS `Array.prototype.join` / string concatenation of parts with a
separator, by structural recursion over character lists. -/
def strJoin (sep : String) (parts : List String) : String :=
  ⟨List.intercalate sep.data (parts.map String.data)⟩

/-- Digits-so-far accumulator for decimal parsing. -/
def digitsToNat (ds : List Char) : Nat :=
  ds.foldl (fun n c => n * 10 + (c.toNat - 48)) 0

/-- Model of JS `parseFloat` restricted to plain decimal literals
(optional sign, integer digits, optional fraction). `parseFloat` inputs in
this code base are Nominatim latitude/longitude strings, which have exactly
this shape; non-numeric input (JS `NaN`) is modelled as `0`, since no
verified property depends on non-numeric provider coordinates. -/
def jsParseFloat (s : String) : Rat :=
  let cs := s.jsTrim.data
  let signAndRest : Rat × List Char :=
    match cs with
    | '-' :: t => (-1, t)
    | '+' :: t => (1, t)
    | _ => (1, cs)
  let intDigits := signAndRest.2.takeWhile Char.isDigit
  let afterInt := signAndRest.2.dropWhile Char.isDigit
  let fracDigits :=
    match afterInt with
    | '.' :: t => t.takeWhile Char.isDigit
    | _ => []
  if intDigits.isEmpty ∧ fracDigits.isEmpty then 0
  else
    signAndRest.1 *
      ((digitsToNat intDigits : Rat) +
        (digitsToNat fracDigits : Rat) / ((10 : Rat) ^ fracDigits.length))

/-- Model of `geocodeAddress`: returns the parsed optional result together
with the number of network calls issued (`0` on the empty-address early
return, `1` otherwise). A non-success status and any exception are caught
and collapsed to `null` (`none`), exactly as in the source. -/
def geocodeAddress (net : String → FetchOutcome) (address : String) :
    Option GeocodeResult × Nat :=
  if address.jsTrim = "" then (none, 0)
  else
    match net address with
    | .ok [] => (none, 1)
    | .ok (r :: _) =>
        (some { lat := jsParseFloat r.lat, lon := jsParseFloat r.lon,
                display_name := r.display_name, address := r.address }, 1)
    | .httpError _ => (none, 1)
    | .exception _ => (none, 1)

/-- The combined `filter`/`map` step of `buildAddressString`: an absent or
whitespace-only component is dropped (`part?.trim()` is falsy), a kept
component is trimmed. -/
def dropEmptyPart (p : Option String) : Option String :=
  match p with
  | some s => if s.jsTrim = "" then none else some s.jsTrim
  | none => none

/-- `buildAddressString` from `geocoding.ts`: drop absent or
whitespace-only components, trim the rest, join with `", "`. -/
def buildAddressString (street zipCode city country : Option String) : String :=
  strJoin ", " ([street, zipCode, city, country].filterMap dropEmptyPart)

/-- The observable behaviour of one `geocodeAddressWithRateLimit` call:
its returned value, the network calls issued, and the delay awaited. -/
structure GeoCallResult where
  result : Option GeocodeResult
  networkCalls : Nat
  delayMs : Nat
  deriving Repr, DecidableEq

/-- Model of `geocodeAddressWithRateLimit`: call `geocodeAddress`, then
await `delay(RATE_LIMIT_DELAY)` unconditionally, then return the result. -/
def geocodeAddressWithRateLimit (net : String → FetchOutcome)
    (address : String) : GeoCallResult :=
  let r := geocodeAddress net address
  { result := r.1, networkCalls := r.2, delayMs := RATE_LIMIT_DELAY }

/-! ## Row processor (`src/utils/addressProcessing.ts`) -/

/-- How one call of the (rate-limited) geocoding client behaves from the row
processor's point of view: a result, a `null` ("not found"), or a raised
exception (defensively caught by the row processor; `some m` is a JS `Error`
with message `m`, `none` a non-`Error` throw). -/
inductive GeoOutcome where
  | found (g : GeocodeResult)
  | notFound
  | raise (msg : Option String)
  deriving Repr, DecidableEq

/-- One observable call of the rate-limited client: its outcome plus the
effects (network calls, delay) it performs. -/
structure GeoCall where
  outcome : GeoOutcome
  networkCalls : Nat
  delayMs : Nat
  deriving Repr, DecidableEq

/-- Model of `processAddressRow`: build the address string from the mapped
street/zipCode/city columns (the country column is not consulted), then
either record "Empty address" with no call, or invoke the geocoding client
`geo` once and record its outcome. Returns the `ProcessedAddress` together
with the number of network calls issued. -/
def processAddressRow (geo : String → GeoCall) (row : CSVRow)
    (columnMapping : ColumnMapping) : ProcessedAddress × Nat :=
  let addressString := buildAddressString
    (columnMapping.street.bind fun c => lookupKey row c)
    (columnMapping.zipCode.bind fun c => lookupKey row c)
    (columnMapping.city.bind fun c => lookupKey row c)
    none
  if addressString.jsTrim ≠ "" then
    match (geo addressString).outcome with
    | .found g =>
        ({ originalData := row, geocodeResult := some g,
           coordinates := some (g.lat, g.lon), error := none },
         (geo addressString).networkCalls)
    | .notFound =>
        ({ originalData := row, error := some "Address could not be found" },
         (geo addressString).networkCalls)
    | .raise msg =>
        ({ originalData := row, error := some (msg.getD "Geocoding error") },
         (geo addressString).networkCalls)
  else
    ({ originalData := row, error := some "Empty address" }, 0)

/-- `calculateProgress` from `addressProcessing.ts`. -/
def calculateProgress (total processed successful failed : Nat) :
    ProcessingProgress :=
  { total := total, processed := processed,
    successful := successful, failed := failed }

/-- `isProcessedAddressSuccessful`: JS `!!(geocodeResult && !error)`; note
that an empty-string error is falsy. -/
def isProcessedAddressSuccessful (processedAddress : ProcessedAddress) : Bool :=
  processedAddress.geocodeResult.isSome && !(strTruthy processedAddress.error)

/-! ## Batch driver (`App.tsx`, `handleStartProcessing`) -/

/-- The state accumulated by the processing loop of `handleStartProcessing`:
the collected rows, the incremental counters, and every progress snapshot
written to React state (the pre-loop snapshot plus the batched in-loop
updates). -/
structure DriverState where
  processedAddresses : List ProcessedAddress
  successful : Nat
  failed : Nat
  emitted : List ProcessingProgress
  deriving Repr, DecidableEq

/-- One pass of the `for` loop of `handleStartProcessing` over the remaining
rows, carrying the current index `i` and the fixed row count `total`:
process the row, push it, bump the incremental counters, and emit a progress
snapshot when `(i + 1) % 10 === 0` or `i === total - 1`. The externally
settable cancellation flag is not consulted anywhere in this loop, exactly
as in the source. -/
def runBatchAux (geo : String → GeoCall) (columnMapping : ColumnMapping)
    (total : Nat) : List CSVRow → Nat → DriverState → DriverState
  | [], _, s => s
  | row :: rest, i, s =>
      let pa := (processAddressRow geo row columnMapping).1
      let s1 : DriverState :=
        { s with
          processedAddresses := s.processedAddresses ++ [pa],
          successful :=
            s.successful + (if isProcessedAddressSuccessful pa then 1 else 0),
          failed :=
            s.failed + (if isProcessedAddressSuccessful pa then 0 else 1) }
      let s2 : DriverState :=
        if (i + 1) % 10 == 0 || i == total - 1 then
          { s1 with
            emitted := s1.emitted ++
              [calculateProgress total (i + 1) s1.successful s1.failed] }
        else s1
      runBatchAux geo columnMapping total rest (i + 1) s2

/-- The whole processing loop of `handleStartProcessing`: the pre-loop state
update emits `{ total := rows.length, processed := 0, ... }`, then every row
is processed sequentially. -/
def runBatch (geo : String → GeoCall) (rows : List CSVRow)
    (columnMapping : ColumnMapping) : DriverState :=
  runBatchAux geo columnMapping rows.length rows 0
    { processedAddresses := [], successful := 0, failed := 0,
      emitted := [calculateProgress rows.length 0 0 0] }

/-- The slice of React `AppState` relevant to cancellation. -/
structure AppState where
  isProcessing : Bool
  processedAddresses : List ProcessedAddress
  progress : ProcessingProgress
  deriving Repr, DecidableEq

/-- `handleCancelProcessing` from `App.tsx`: `{ ...prev, isProcessing: false }`.
It clears the flag and changes nothing else; no other part of the program
reads this flag to stop the processing loop. -/
def handleCancelProcessing (prev : AppState) : AppState :=
  { prev with isProcessing := false }

/-! ## Column auto-detector (`src/utils/csvParser.ts`, `autoDetectColumns`) -/

/-- Whether `p` is a prefix of `l` (character lists). -/
def isPrefixList : List Char → List Char → Bool
  | [], _ => true
  | _ :: _, [] => false
  | a :: as, b :: bs => a = b && isPrefixList as bs

/-- JS `String.prototype.includes`: `pat` occurs contiguously in `hay`. -/
def hasSubstring : List Char → List Char → Bool
  | [], pat => pat.isEmpty
  | c :: t, pat => isPrefixList pat (c :: t) || hasSubstring t pat

/-- JS `Array.prototype.findIndex`: index of the first element satisfying
`p`, if any. -/
def firstIdx {α : Type} (p : α → Bool) : List α → Option Nat
  | [] => none
  | a :: t => if p a then some 0 else (firstIdx p t).map (· + 1)

/-- The ZIP-code patterns of `autoDetectColumns`. -/
def zipPatterns : List String :=
  ["plz", "postleitzahl", "zip", "zipcode", "zip code", "postal code",
   "postalcode", "zip-code", "post code", "postcode", "postal_code"]

/-- The street patterns of `autoDetectColumns`. -/
def streetPatterns : List String :=
  ["straße", "strasse", "str", "street", "address", "adresse", "anschrift",
   "hausnummer", "streetaddress", "street address", "street_address", "addr",
   "strasse_hausnummer", "straße_hausnummer", "straßeundnummer",
   "addressline", "address line"]

/-- The city patterns of `autoDetectColumns`. -/
def cityPatterns : List String :=
  ["ort", "stadt", "city", "town", "place", "gemeinde", "municipality",
   "ortschaft", "wohnort", "locality", "location", "standort"]

/-- The country patterns of `autoDetectColumns`. -/
def countryPatterns : List String :=
  ["land", "country", "staat", "nation", "ländercode", "country code",
   "country_code", "countrycode", "iso_country", "iso country"]

/-- The header normalization of `autoDetectColumns`:
`header.toLowerCase().trim()`. -/
def normalizeHeader (h : String) : String := h.jsToLower.jsTrim

/-- The two pattern scans inside `findBestMatch`: for each pattern in order,
find the first normalized header satisfying `test`, and return the original
(un-normalized) header at that index. -/
def findPatternMatch (headers normalizedHeaders : List String)
    (test : String → String → Bool) : List String → Option String
  | [] => none
  | p :: ps =>
      match firstIdx (fun h => test h p) normalizedHeaders with
      | some i => headers.get? i
      | none => findPatternMatch headers normalizedHeaders test ps

/-- `findBestMatch` from `autoDetectColumns`: exact (case/trim-insensitive)
matches first, then substring containment; in each tier the first pattern
wins, then the first header in header order. -/
def findBestMatch (headers : List String) (patterns : List String) :
    Option String :=
  let normalizedHeaders := headers.map normalizeHeader
  match findPatternMatch headers normalizedHeaders (fun h p => h == p) patterns with
  | some h => some h
  | none =>
      findPatternMatch headers normalizedHeaders
        (fun h p => hasSubstring h.data p.data) patterns

/-- `autoDetectColumns` from `csvParser.ts`. -/
def autoDetectColumns (headers : List String) :
    Option String × Option String × Option String × Option String :=
  (findBestMatch headers zipPatterns,
   findBestMatch headers streetPatterns,
   findBestMatch headers cityPatterns,
   findBestMatch headers countryPatterns)

/-! ## CSV serialization (model of `Papa.unparse` / CSV re-parsing)

`downloadFailedAddressesCSV` serializes via `Papa.unparse` with the default
configuration: delimiter `","`, row separator `"\r\n"`, and a field is
quoted exactly when it contains the quote character, the delimiter, or a
line break; quote characters inside a quoted field are doubled. The claims
speak about re-parsing this output, so a standard CSV reader over the same
dialect is modelled as well. -/

/-- Double every quote character (the inside of a quoted CSV field). -/
def escInner : List Char → List Char
  | [] => []
  | '"' :: t => '"' :: '"' :: escInner t
  | c :: t => c :: escInner t

/-- Whether a field must be quoted: it contains the delimiter, a quote, or a
line break. -/
def needsQuoteB (s : List Char) : Bool :=
  s.any fun c => c = ',' || c = '"' || c = '\r' || c = '\n'

/-- Serialize one CSV field. -/
def encodeField (s : List Char) : List Char :=
  if needsQuoteB s then '"' :: (escInner s ++ ['"']) else s

/-- Serialize one CSV record: fields joined with the delimiter. -/
def encodeRow (r : List (List Char)) : List Char :=
  List.intercalate [','] (r.map encodeField)

/-- Serialize a whole CSV table: records joined with `"\r\n"`, no trailing
line break. -/
def encodeCSV (t : List (List (List Char))) : List Char :=
  List.intercalate ['\r', '\n'] (t.map encodeRow)

/-- `Papa.unparse` model at `String` level. -/
def csvUnparse (t : List (List String)) : String :=
  ⟨encodeCSV (t.map (·.map String.data))⟩

/-- Scan a quoted CSV field: consume up to the closing quote, reading a
doubled quote as a literal quote. Returns the field (in order) and the
remaining input (starting right after the closing quote). An unterminated
quoted field extends to the end of the input. -/
def parseQuoted : List Char → List Char → List Char × List Char
  | [], acc => (acc.reverse, [])
  | '"' :: rest, acc =>
      match rest with
      | '"' :: rest' => parseQuoted rest' ('"' :: acc)
      | _ => (acc.reverse, rest)
  | c :: rest, acc => parseQuoted rest (c :: acc)

/-- The remaining input of `parseQuoted` is no longer than its input. -/
theorem parseQuoted_rest_le (inp acc : List Char) :
    (parseQuoted inp acc).2.length ≤ inp.length := by
  induction inp, acc using parseQuoted.induct
  all_goals simp_all [parseQuoted]
  all_goals omega

/-- The main CSV scanner: `inp` is the remaining input, `fld` the current
field's characters in reverse, `row` the completed fields of the current
record (most recent first), `acc` the completed records (most recent
first). A `"` opening a fresh field reads a quoted field via `parseQuoted`
and then continues scanning right after the closing quote with the read
field as the current accumulation, so that the following delimiter, line
break, or end of input closes the field as usual. -/
def parseAux : List Char → List Char → List (List Char) →
    List (List (List Char)) → List (List (List Char))
  | [], fld, row, acc => ((fld.reverse :: row).reverse :: acc).reverse
  | ',' :: rest, fld, row, acc => parseAux rest [] (fld.reverse :: row) acc
  | '\r' :: '\n' :: rest, fld, row, acc =>
      parseAux rest [] [] ((fld.reverse :: row).reverse :: acc)
  | '\r' :: rest, fld, row, acc =>
      parseAux rest [] [] ((fld.reverse :: row).reverse :: acc)
  | '\n' :: rest, fld, row, acc =>
      parseAux rest [] [] ((fld.reverse :: row).reverse :: acc)
  | '"' :: rest, fld, row, acc =>
      if fld.isEmpty then
        have hq : (parseQuoted rest []).2.length ≤ rest.length :=
          parseQuoted_rest_le rest []
        parseAux (parseQuoted rest []).2 (parseQuoted rest []).1.reverse row acc
      else parseAux rest ('"' :: fld) row acc
  | c :: rest, fld, row, acc => parseAux rest (c :: fld) row acc
  termination_by inp _ _ _ => inp.length
  decreasing_by
    all_goals simp_all
    all_goals omega

/-- CSV re-parse model at `String` level. -/
def csvParse (s : String) : List (List String) :=
  (parseAux s.data [] [] []).map (·.map fun cs => ⟨cs⟩)

/-! ## Failure exporter (`src/utils/csvParser.ts`, `downloadFailedAddressesCSV`) -/

/-- The column-union computation of `downloadFailedAddressesCSV`: walk the
failed rows in order, walk each row's keys in order, and push every key not
seen before (the `seenColumns` set is modelled by membership in the
accumulated list). -/
def failedHeader (failedAddresses : List ProcessedAddress) : List String :=
  (failedAddresses.flatMap fun addr => addr.originalData.map Prod.fst).foldl
    (fun allColumns key =>
      if key ∈ allColumns then allColumns else allColumns ++ [key])
    []

/-- One serialized data record: for each header column, the row's original
value, or an empty cell when the column is missing (`Papa.unparse` renders
an absent object property as the empty field). -/
def rowCells (headers : List String) (addr : ProcessedAddress) : List String :=
  headers.map fun c => (lookupKey addr.originalData c).getD ""

/-- Model of `downloadFailedAddressesCSV`: `none` when the selection is
empty (the function returns without any output); otherwise the serialized
CSV text that the triggered download would contain. -/
def downloadFailedAddressesCSV (failedAddresses : List ProcessedAddress) :
    Option String :=
  if failedAddresses.isEmpty then none
  else
    some (csvUnparse
      (failedHeader failedAddresses ::
        failedAddresses.map (rowCells (failedHeader failedAddresses))))

/-- Reference form of "union in first-appearance order": keep each element's
first occurrence, drop the later ones. -/
def dedupFirst : List String → List String
  | [] => []
  | c :: t => c :: dedupFirst (t.filter fun x => x ≠ c)
  termination_by l => l.length
  decreasing_by
    simp only [List.length_cons]
    exact Nat.lt_succ_of_le (List.length_filter_le _ _)

/-! ## Feature-collection assembler (`src/utils/jsonExport.ts`) -/

/-- A feature property value (`string | number | boolean | null`). -/
inductive JsonValue where
  | str (s : String)
  | num (q : Rat)
  | bool (b : Bool)
  | null
  deriving Repr, DecidableEq

/-- A point feature of the exported collection: the `[lon, lat]` geometry
coordinate pair and the property bag, in insertion order. -/
structure Feature where
  coordinates : Rat × Rat
  properties : List (String × JsonValue)
  deriving Repr, DecidableEq

/-- The exported feature collection. -/
structure FeatureCollection where
  features : List Feature
  deriving Repr, DecidableEq

/-- Model of JS `Number(value)` coercion for the metadata values of
`convertToGeoJSON`, restricted to decimal literals with optional sign,
fraction, and exponent: `none` is JS `NaN`; surrounding whitespace is
ignored and the whitespace-only string coerces to `0`. (The exotic numeric
shapes `Number` also accepts — hexadecimal, binary, octal, `Infinity` — are
not modelled; no verified property depends on them.) -/
def jsNumber (s : String) : Option Rat :=
  let t := s.jsTrim
  if t = "" then some 0
  else
    let signAndRest : Rat × List Char :=
      match t.data with
      | '-' :: r => (-1, r)
      | '+' :: r => (1, r)
      | _ => (1, t.data)
    let intDigits := signAndRest.2.takeWhile Char.isDigit
    let afterInt := signAndRest.2.dropWhile Char.isDigit
    let fracAndRest : List Char × List Char :=
      match afterInt with
      | '.' :: r => (r.takeWhile Char.isDigit, r.dropWhile Char.isDigit)
      | _ => ([], afterInt)
    let mantissa : Rat :=
      (digitsToNat intDigits : Rat) +
        (digitsToNat fracAndRest.1 : Rat) / ((10 : Rat) ^ fracAndRest.1.length)
    if intDigits.isEmpty ∧ fracAndRest.1.isEmpty then none
    else
      match fracAndRest.2 with
      | [] => some (signAndRest.1 * mantissa)
      | e :: r =>
          if e = 'e' ∨ e = 'E' then
            let expSignAndRest : Int × List Char :=
              match r with
              | '-' :: r2 => (-1, r2)
              | '+' :: r2 => (1, r2)
              | _ => (1, r)
            let expDigits := expSignAndRest.1 * (digitsToNat
              (expSignAndRest.2.takeWhile Char.isDigit) : Int)
            if expSignAndRest.2.isEmpty ∨
                ¬ (expSignAndRest.2.all Char.isDigit) then none
            else some (signAndRest.1 * mantissa * (10 : Rat) ^ expDigits)
          else none

/-- The metadata coercion of `convertToGeoJSON`:
`!isNaN(Number(value)) && value.trim() !== "" ? Number(value) : value`. -/
def coerceMeta (value : String) : JsonValue :=
  match jsNumber value with
  | some numValue => if value.jsTrim ≠ "" then .num numValue else .str value
  | none => .str value

/-- `extractCityFromAddress` from `jsonExport.ts`: postcode first, then the
first nonempty component of city/town/village/municipality/county/suburb,
joined with a space. -/
def extractCityFromAddress (address : AddressData) : String :=
  let cityParts :=
    (match address.postcode with
     | some p => if p.jsTrim ≠ "" then [p.jsTrim] else []
     | none => []) ++
    (match [address.city, address.town, address.village, address.municipality,
            address.county, address.suburb].findSome? (fun c =>
        match c with
        | some s => if s.jsTrim ≠ "" then some s.jsTrim else none
        | none => none) with
     | some c => [c]
     | none => [])
  strJoin " " cityParts

/-- `constructDisplayName` from `jsonExport.ts`: street (road + house
number), then the extracted city string; if both are absent, the first
nonempty of village/town/suburb/state/country; joined with `", "`. -/
def constructDisplayName (address : AddressData) : String :=
  let streetParts :=
    (match address.road with
     | some r => if r.jsTrim ≠ "" then [r.jsTrim] else []
     | none => []) ++
    (match address.house_number with
     | some h => if h.jsTrim ≠ "" then [h.jsTrim] else []
     | none => [])
  let addressParts :=
    (if streetParts ≠ [] then [strJoin " " streetParts] else []) ++
    (let cityString := extractCityFromAddress address
     if cityString.jsTrim ≠ "" then [cityString] else [])
  let addressParts :=
    if addressParts = [] then
      match [address.village, address.town, address.suburb, address.state,
             address.country].filterMap (fun c =>
          match c with
          | some s => if s.jsTrim ≠ "" then some s else none
          | none => none) with
      | [] => []
      | c :: _ => [c.jsTrim]
    else addressParts
  strJoin ", " addressParts

/-- The name-column patterns of `generateUMapProperties`. -/
def nameColumns : List String :=
  ["name", "firma", "company", "unternehmen", "organisation", "organization",
   "title", "bezeichnung"]

/-- The name search of `generateUMapProperties`: for each pattern in order,
find the first original-data key containing it (case-insensitively); if that
key's value is nonempty after trimming, take it, otherwise try the next
pattern. -/
def findNameValue (originalData : CSVRow) : List String → Option String
  | [] => none
  | col :: cols =>
      match originalData.find? (fun kv => hasSubstring kv.1.jsToLower.data col.data) with
      | some kv =>
          if kv.2.jsTrim ≠ "" then some kv.2.jsTrim else findNameValue originalData cols
      | none => findNameValue originalData cols

/-- `generateUMapProperties` from `jsonExport.ts`: the uMap title (`name`)
and `description` computed from the original row data, the selected metadata
columns, and the constructed display name. -/
def generateUMapProperties (originalData : CSVRow) (metadataColumns : List String)
    (displayName : Option String) : String × String :=
  let name :=
    match findNameValue originalData nameColumns with
    | some n => n
    | none =>
        if strTruthy displayName then displayName.getD "" else
          match metadataColumns.findSome? (fun col =>
              match lookupKey originalData col with
              | some v => if v.jsTrim ≠ "" then some v.jsTrim else none
              | none => none) with
          | some v => v
          | none => ""
  let name := if name = "" then "Address" else name
  let descriptionParts := metadataColumns.filterMap fun column =>
    match lookupKey originalData column with
    | some value =>
        if value.jsTrim ≠ "" then
          some ("<strong>" ++ column ++ ":</strong> " ++ value.jsTrim)
        else none
    | none => none
  let description :=
    if descriptionParts ≠ [] then strJoin "<br>" descriptionParts
    else ""
  let description :=
    match displayName with
    | some dn =>
        if dn ≠ "" ∧ dn ≠ name then
          (if description ≠ "" then description ++ "<br><br>" else description) ++
            ("<strong>Address:</strong> " ++ dn)
        else description
    | none => description
  let description := if description = "" then name else description
  (name, description)

/-- The body of the `map` inside `convertToGeoJSON` for one included row:
metadata properties (numeric-looking values coerced), then the uMap `name`
and `description`, then the `[lon, lat]` point geometry. A missing
`geocodeResult` is the `throw new Error("Geocode result is required")`
branch, modelled as `Except.error`. -/
def featureOf (metadataColumns : List String) (addr : ProcessedAddress) :
    Except String Feature :=
  match addr.geocodeResult with
  | none => .error "Geocode result is required"
  | some g =>
      let properties : List (String × JsonValue) :=
        metadataColumns.foldl
          (fun props column =>
            match lookupKey addr.originalData column with
            | some value => setKey props column (coerceMeta value)
            | none => props)
          []
      let address := g.address.getD {}
      let displayName := constructDisplayName address
      let uMapData := generateUMapProperties addr.originalData metadataColumns
        (some displayName)
      let properties := setKey properties "name" (.str uMapData.1)
      let properties := setKey properties "description" (.str uMapData.2)
      .ok { coordinates := (g.lon, g.lat), properties := properties }

/-- The row filter of `convertToGeoJSON`:
`addr.geocodeResult && !addr.error` (JS truthiness: an empty-string error is
falsy and does not exclude the row). -/
def includedRow (addr : ProcessedAddress) : Bool :=
  addr.geocodeResult.isSome && !(strTruthy addr.error)

/-- Model of `convertToGeoJSON` (`jsonExport.ts`, the uMap variant with
`constructDisplayName`): filter to rows with a geocode result and no truthy
error, then map each to a point feature. -/
def convertToGeoJSON (processedAddresses : List ProcessedAddress)
    (metadataColumns : List String) : Except String FeatureCollection := do
  let features ← (processedAddresses.filter includedRow).mapM
    (featureOf metadataColumns)
  return { features := features }

/-! ## Small helper lemmas -/

/-- A component that is absent or whitespace-only is dropped by the
`buildAddressString` filter. -/
theorem dropEmptyPart_eq_none (o : Option String)
    (h : ∀ v, o = some v → v.jsTrim = "") : dropEmptyPart o = none := by
  cases o with
  | none => rfl
  | some v => simp [dropEmptyPart, h v rfl]

/-- `buildAddressString` of four absent-or-whitespace components is the
empty string. -/
theorem buildAddressString_empty (s z c co : Option String)
    (hs : ∀ v, s = some v → v.jsTrim = "")
    (hz : ∀ v, z = some v → v.jsTrim = "")
    (hc : ∀ v, c = some v → v.jsTrim = "")
    (hco : ∀ v, co = some v → v.jsTrim = "") :
    buildAddressString s z c co = "" := by
  unfold buildAddressString
  rw [List.filterMap_cons, List.filterMap_cons, List.filterMap_cons,
    List.filterMap_cons, dropEmptyPart_eq_none s hs, dropEmptyPart_eq_none z hz,
    dropEmptyPart_eq_none c hc, dropEmptyPart_eq_none co hco]
  rfl

/-! ## Claim C1 (corrected): empty address in the rate-limited entry point -/

/-- C1 (counterexample to the claim as stated): `geocodeAddressWithRateLimit`
applied to the empty address resolves to `null` with no network call, but
the rate-limit delay of 1000 ms IS incurred — the `await delay(...)` in the
source is unconditional, so "no rate-limit delay incurred" is false. -/
theorem geocodeAddressWithRateLimit_empty_delay_cex :
    (geocodeAddressWithRateLimit (fun _ => FetchOutcome.ok []) "").result = none ∧
    (geocodeAddressWithRateLimit (fun _ => FetchOutcome.ok []) "").networkCalls = 0 ∧
    (geocodeAddressWithRateLimit (fun _ => FetchOutcome.ok []) "").delayMs = 1000 ∧
    ¬ (geocodeAddressWithRateLimit (fun _ => FetchOutcome.ok []) "").delayMs = 0 := by
  refine ⟨rfl, rfl, rfl, ?_⟩
  decide

/-- C1 (amended): for every whitespace-only address, the rate-limited entry
point resolves to `null` and makes no network call, but still incurs the
fixed `RATE_LIMIT_DELAY` (1000 ms) delay. -/
theorem geocodeAddressWithRateLimit_empty (net : String → FetchOutcome)
    (address : String) (h : address.jsTrim = "") :
    geocodeAddressWithRateLimit net address =
      { result := none, networkCalls := 0, delayMs := RATE_LIMIT_DELAY } := by
  simp [geocodeAddressWithRateLimit, geocodeAddress, h]

/-- Witness for `geocodeAddressWithRateLimit_empty` at a concrete
whitespace-only address and a concrete network oracle. -/
theorem geocodeAddressWithRateLimit_empty_witness :
    "  ".jsTrim = "" ∧
    geocodeAddressWithRateLimit (fun _ => FetchOutcome.httpError 503) "  " =
      { result := none, networkCalls := 0, delayMs := RATE_LIMIT_DELAY } :=
  ⟨by decide, geocodeAddressWithRateLimit_empty _ "  " (by decide)⟩

/-! ## Claim C7 (confirmed): the geocoding client never propagates errors -/

/-- C7: `geocodeAddress` never throws: whenever the transport produces a
non-success status (the internal `throw new Error(...)` path) or the fetch
or JSON parse raises, the caught exception is converted into a `null`
(`none`) return value. -/
theorem geocodeAddress_errors_to_null (net : String → FetchOutcome)
    (address : String)
    (h : (∃ s, net address = .httpError s) ∨ (∃ m, net address = .exception m)) :
    (geocodeAddress net address).1 = none := by
  unfold geocodeAddress
  split
  · rfl
  · rcases h with ⟨s, hs⟩ | ⟨m, hm⟩
    · simp [hs]
    · simp [hm]

/-- Witness for `geocodeAddress_errors_to_null`: a concrete 503 transport
failure and a concrete network exception both yield `null`. -/
theorem geocodeAddress_errors_to_null_witness :
    (geocodeAddress (fun _ => FetchOutcome.httpError 503) "Main St").1 = none ∧
    (geocodeAddress (fun _ => FetchOutcome.exception "network down") "Main St").1 = none :=
  ⟨geocodeAddress_errors_to_null _ "Main St" (Or.inl ⟨503, rfl⟩),
   geocodeAddress_errors_to_null _ "Main St" (Or.inr ⟨"network down", rfl⟩)⟩

/-! ## Claim C4 (confirmed): all-empty mapped address columns -/

/-- C4: whenever every mapped address column of a row resolves to an absent
or whitespace-only value (unmapped fields included), `processAddressRow`
returns the error row with message "Empty address", no geocode result and no
coordinates, and issues zero network calls (the geocoding client is never
invoked). -/
theorem processAddressRow_empty_address (geo : String → GeoCall) (row : CSVRow)
    (m : ColumnMapping)
    (hs : ∀ c, m.street = some c → ∀ v, lookupKey row c = some v → v.jsTrim = "")
    (hz : ∀ c, m.zipCode = some c → ∀ v, lookupKey row c = some v → v.jsTrim = "")
    (hc : ∀ c, m.city = some c → ∀ v, lookupKey row c = some v → v.jsTrim = "")
    (hco : ∀ c, m.country = some c → ∀ v, lookupKey row c = some v → v.jsTrim = "") :
    processAddressRow geo row m =
      ({ originalData := row, geocodeResult := none, coordinates := none,
         error := some "Empty address" }, 0) := by
  have hbuild : buildAddressString
      (m.street.bind fun c => lookupKey row c)
      (m.zipCode.bind fun c => lookupKey row c)
      (m.city.bind fun c => lookupKey row c) none = "" := by
    apply buildAddressString_empty
    · intro v hv
      rcases Option.bind_eq_some.mp hv with ⟨c, hcs, hlv⟩
      exact hs c hcs v hlv
    · intro v hv
      rcases Option.bind_eq_some.mp hv with ⟨c, hcs, hlv⟩
      exact hz c hcs v hlv
    · intro v hv
      rcases Option.bind_eq_some.mp hv with ⟨c, hcs, hlv⟩
      exact hc c hcs v hlv
    · intro v hv
      simp at hv
  unfold processAddressRow
  simp only [hbuild]
  rw [if_neg (show ¬("".jsTrim ≠ "") by decide)]

/-- Witness for `processAddressRow_empty_address`: a concrete row whose
mapped street column is whitespace-only and whose city column is unmapped. -/
theorem processAddressRow_empty_address_witness :
    processAddressRow (fun _ => { outcome := .notFound, networkCalls := 1, delayMs := 1000 })
      [("street", "   "), ("note", "x")]
      { street := some "street", zipCode := some "plz", city := none,
        country := none, metadataColumns := [] } =
      ({ originalData := [("street", "   "), ("note", "x")],
         geocodeResult := none, coordinates := none,
         error := some "Empty address" }, 0) :=
  processAddressRow_empty_address _ _ _
    (by intro c hcs v hlv
        simp at hcs
        subst hcs
        simp [lookupKey] at hlv
        subst hlv
        decide)
    (by intro c hcs v hlv
        simp at hcs
        subst hcs
        simp [lookupKey] at hlv)
    (by intro c hcs v hlv
        simp at hcs)
    (by intro c hcs v hlv
        simp at hcs)

/-! ## Claim C10 (confirmed): `originalData` is the input row, unchanged -/

/-- C10: on every path — success, not-found, raised-and-caught, and empty
address — the `ProcessedAddress` returned by `processAddressRow` carries the
input row itself as `originalData`: the same column-to-value association,
with no cell added, removed or rewritten. -/
theorem processAddressRow_originalData (geo : String → GeoCall) (row : CSVRow)
    (m : ColumnMapping) :
    (processAddressRow geo row m).1.originalData = row := by
  simp only [processAddressRow]
  split
  · split <;> rfl
  · rfl

/-- Witness for `processAddressRow_originalData` at a concrete row, mapping
and geocoder. -/
theorem processAddressRow_originalData_witness :
    (processAddressRow
      (fun _ => { outcome := .found { lat := 40, lon := -75 }, networkCalls := 1,
                  delayMs := 1000 })
      [("street", "Main St"), ("zip", "12345")]
      { street := some "street", zipCode := some "zip" }).1.originalData =
      [("street", "Main St"), ("zip", "12345")] :=
  processAddressRow_originalData _ _ _

/-! ## Claim C3 (confirmed): exact final progress snapshot -/

/-- The rows a batch run produces, in order. -/
def processedRowsOf (geo : String → GeoCall) (columnMapping : ColumnMapping)
    (rows : List CSVRow) : List ProcessedAddress :=
  rows.map fun row => (processAddressRow geo row columnMapping).1

/-- The number of processed rows counted successful (by the code's own
predicate `isProcessedAddressSuccessful`). -/
def countSuccessful (l : List ProcessedAddress) : Nat :=
  (l.filter isProcessedAddressSuccessful).length

/-- The number of processed rows counted failed. -/
def countFailed (l : List ProcessedAddress) : Nat :=
  (l.filter fun a => !isProcessedAddressSuccessful a).length

/-- Counted-successful plus counted-failed is the number of rows. -/
theorem countSuccessful_add_countFailed (l : List ProcessedAddress) :
    countSuccessful l + countFailed l = l.length := by
  induction l with
  | nil => rfl
  | cons a t ih =>
      simp only [countSuccessful, countFailed, List.filter_cons,
        List.length_cons] at ih ⊢
      cases h : isProcessedAddressSuccessful a <;> simp <;> omega

/-- `countSuccessful` unfolding on a cons. -/
theorem countSuccessful_cons (a : ProcessedAddress) (l : List ProcessedAddress) :
    countSuccessful (a :: l) =
      (if isProcessedAddressSuccessful a then 1 else 0) + countSuccessful l := by
  simp only [countSuccessful, List.filter_cons]
  cases isProcessedAddressSuccessful a <;> simp <;> omega

/-- `countFailed` unfolding on a cons. -/
theorem countFailed_cons (a : ProcessedAddress) (l : List ProcessedAddress) :
    countFailed (a :: l) =
      (if isProcessedAddressSuccessful a then 0 else 1) + countFailed l := by
  simp only [countFailed, List.filter_cons]
  cases isProcessedAddressSuccessful a <;> simp <;> omega

/-- One unfolding step of the processing loop, with the emission condition
pushed into the `emitted` field. -/
theorem runBatchAux_cons (geo : String → GeoCall) (m : ColumnMapping)
    (total : Nat) (row : CSVRow) (rest : List CSVRow) (i : Nat)
    (s : DriverState) :
    runBatchAux geo m total (row :: rest) i s =
      runBatchAux geo m total rest (i + 1)
        { processedAddresses :=
            s.processedAddresses ++ [(processAddressRow geo row m).1],
          successful := s.successful +
            (if isProcessedAddressSuccessful (processAddressRow geo row m).1
             then 1 else 0),
          failed := s.failed +
            (if isProcessedAddressSuccessful (processAddressRow geo row m).1
             then 0 else 1),
          emitted :=
            if ((i + 1) % 10 == 0 || i == total - 1) = true then
              s.emitted ++
                [calculateProgress total (i + 1)
                  (s.successful +
                    (if isProcessedAddressSuccessful
                        (processAddressRow geo row m).1 then 1 else 0))
                  (s.failed +
                    (if isProcessedAddressSuccessful
                        (processAddressRow geo row m).1 then 0 else 1))]
            else s.emitted } := by
  simp only [runBatchAux]
  split <;> simp_all

/-- The processing loop appends exactly the processed rows, in order. -/
theorem runBatchAux_processedAddresses (geo : String → GeoCall)
    (m : ColumnMapping) (total : Nat) :
    ∀ (rest : List CSVRow) (i : Nat) (s : DriverState),
      (runBatchAux geo m total rest i s).processedAddresses =
        s.processedAddresses ++ processedRowsOf geo m rest := by
  intro rest
  induction rest with
  | nil => intro i s; simp [runBatchAux, processedRowsOf]
  | cons row rest ih =>
      intro i s
      rw [runBatchAux_cons, ih]
      simp [processedRowsOf]

/-- The incremental successful counter equals the counted value. -/
theorem runBatchAux_successful (geo : String → GeoCall)
    (m : ColumnMapping) (total : Nat) :
    ∀ (rest : List CSVRow) (i : Nat) (s : DriverState),
      (runBatchAux geo m total rest i s).successful =
        s.successful + countSuccessful (processedRowsOf geo m rest) := by
  intro rest
  induction rest with
  | nil => intro i s; simp [runBatchAux, processedRowsOf, countSuccessful]
  | cons row rest ih =>
      intro i s
      rw [runBatchAux_cons, ih]
      simp only [processedRowsOf, List.map_cons, countSuccessful_cons]
      omega

/-- The incremental failed counter equals the counted value. -/
theorem runBatchAux_failed (geo : String → GeoCall)
    (m : ColumnMapping) (total : Nat) :
    ∀ (rest : List CSVRow) (i : Nat) (s : DriverState),
      (runBatchAux geo m total rest i s).failed =
        s.failed + countFailed (processedRowsOf geo m rest) := by
  intro rest
  induction rest with
  | nil => intro i s; simp [runBatchAux, processedRowsOf, countFailed]
  | cons row rest ih =>
      intro i s
      rw [runBatchAux_cons, ih]
      simp only [processedRowsOf, List.map_cons, countFailed_cons]
      omega

/-- When the loop runs through to the last row index, the last emitted
snapshot is the exact final progress. -/
theorem runBatchAux_last_emitted (geo : String → GeoCall)
    (m : ColumnMapping) (total : Nat) :
    ∀ (rest : List CSVRow) (i : Nat) (s : DriverState), rest ≠ [] →
      i + rest.length = total →
      (runBatchAux geo m total rest i s).emitted.getLast? =
        some (calculateProgress total total
          (s.successful + countSuccessful (processedRowsOf geo m rest))
          (s.failed + countFailed (processedRowsOf geo m rest))) := by
  intro rest
  induction rest with
  | nil => intro i s hne _; exact absurd rfl hne
  | cons row rest ih =>
      intro i s _ htot
      rw [runBatchAux_cons]
      cases rest with
      | nil =>
          have h1 : i + 1 = total := by simpa using htot
          have hcond : ((i + 1) % 10 == 0 || i == total - 1) = true := by
            have : i = total - 1 := by omega
            simp [this]
          simp only [runBatchAux, if_pos hcond, List.getLast?_concat]
          simp only [processedRowsOf, List.map_cons, List.map_nil,
            countSuccessful_cons, countFailed_cons]
          simp [calculateProgress, h1, countSuccessful, countFailed]
      | cons row2 rest2 =>
          rw [ih (i + 1) _ (by simp) (by simp at htot ⊢; omega)]
          simp only [processedRowsOf, List.map_cons, countSuccessful_cons,
            countFailed_cons]
          congr 1
          simp [calculateProgress]
          constructor <;> omega

/-- C3: for every row list processed to completion, the batch driver's final
emitted progress snapshot reports `processed = N` and `total = N`, with
`successful` and `failed` equal to the exact counted values over the
collected rows and `successful + failed = N`, regardless of the
every-10th-row emission cadence of intermediate snapshots. -/
theorem runBatch_final_progress (geo : String → GeoCall) (rows : List CSVRow)
    (m : ColumnMapping) :
    ∃ p, (runBatch geo rows m).emitted.getLast? = some p ∧
      p.total = rows.length ∧
      p.processed = rows.length ∧
      p.successful = countSuccessful (runBatch geo rows m).processedAddresses ∧
      p.failed = countFailed (runBatch geo rows m).processedAddresses ∧
      p.successful + p.failed = rows.length := by
  have hrows : (runBatch geo rows m).processedAddresses =
      processedRowsOf geo m rows := by
    unfold runBatch
    rw [runBatchAux_processedAddresses]
    rfl
  have hlen : (processedRowsOf geo m rows).length = rows.length := by
    simp [processedRowsOf]
  cases rows with
  | nil =>
      refine ⟨calculateProgress 0 0 0 0, ?_, rfl, rfl, ?_, ?_, rfl⟩
      · simp [runBatch, runBatchAux]
      · rw [hrows]; rfl
      · rw [hrows]; rfl
  | cons row rest =>
      refine ⟨calculateProgress (row :: rest).length (row :: rest).length
        (countSuccessful (processedRowsOf geo m (row :: rest)))
        (countFailed (processedRowsOf geo m (row :: rest))), ?_, rfl, rfl, ?_, ?_, ?_⟩
      · unfold runBatch
        rw [runBatchAux_last_emitted geo m (row :: rest).length (row :: rest) 0 _
          (by simp) (by simp)]
        simp [calculateProgress]
      · rw [hrows]
        rfl
      · rw [hrows]
        rfl
      · rw [← hlen]
        exact countSuccessful_add_countFailed _
  
/-- Witness for `runBatch_final_progress` on a concrete two-row batch: one
row geocodes, the other is an empty address; the final snapshot is exactly
`{ total := 2, processed := 2, successful := 1, failed := 1 }`. -/
theorem runBatch_final_progress_witness :
    ∃ p, (runBatch
        (fun _ => { outcome := .found { lat := 40, lon := -75 },
                    networkCalls := 1, delayMs := 1000 })
        [[("street", "Main St")], [("street", " ")]]
        { street := some "street" }).emitted.getLast? = some p ∧
      p.total = 2 ∧ p.processed = 2 ∧ p.successful = 1 ∧ p.failed = 1 := by
  rcases runBatch_final_progress
      (fun _ => { outcome := .found { lat := 40, lon := -75 },
                  networkCalls := 1, delayMs := 1000 })
      [[("street", "Main St")], [("street", " ")]]
      { street := some "street" } with ⟨p, hp, ht, hproc, hs, hf, _⟩
  refine ⟨p, hp, ht, hproc, ?_, ?_⟩
  · rw [hs]
    decide
  · rw [hf]
    decide

/-! ## Claim C2 (code bug): cancellation never stops row work -/

/-- A geocoder for the cancellation scenario: every address resolves to
"not found" after one network call and the rate-limit delay. -/
def geoNotFound : String → GeoCall :=
  fun _ => { outcome := .notFound, networkCalls := 1, delayMs := 1000 }

/-- A three-row input batch for the cancellation scenario. -/
def cancelRows : List CSVRow :=
  [[("street", "A 1")], [("street", "A 2")], [("street", "A 3")]]

/-- The column mapping for the cancellation scenario. -/
def cancelMapping : ColumnMapping := { street := some "street" }

/-- C2 (evaluating the code at the failing input): `handleCancelProcessing`
only clears the `isProcessing` flag — it does not touch the row loop — and
the loop itself never reads any cancellation flag, so after a cancel request
the driver still processes every remaining row: on the three-row batch all
3 rows are processed, the final snapshot reports `processed = 3 = total`,
and the claimed invariant `processed < total` is violated. -/
theorem cancellation_not_checked :
    handleCancelProcessing
        { isProcessing := true, processedAddresses := [],
          progress := { total := 3, processed := 1, successful := 0, failed := 1 } } =
      { isProcessing := false, processedAddresses := [],
        progress := { total := 3, processed := 1, successful := 0, failed := 1 } } ∧
    (runBatch geoNotFound cancelRows cancelMapping).processedAddresses.length = 3 ∧
    (runBatch geoNotFound cancelRows cancelMapping).emitted.getLast? =
      some { total := 3, processed := 3, successful := 0, failed := 3 } ∧
    ¬ ((runBatch geoNotFound cancelRows cancelMapping).processedAddresses.length <
        cancelRows.length) := by
  refine ⟨rfl, ?_, ?_, ?_⟩ <;> decide

/-! ## Claim C8 (confirmed): auto-detection returns original headers with
exact-match priority and first-pattern/first-header tie-breaking -/

/-- `firstIdx` characterization: the found index holds a satisfying element
and every earlier index does not. -/
theorem firstIdx_eq_some {α : Type} (p : α → Bool) :
    ∀ (l : List α) (i : Nat), firstIdx p l = some i →
      ∃ a, l.get? i = some a ∧ p a = true ∧
        ∀ j b, j < i → l.get? j = some b → p b = false := by
  intro l
  induction l with
  | nil => intro i h; simp [firstIdx] at h
  | cons a t ih =>
      intro i h
      by_cases hp : p a = true
      · simp [firstIdx, hp] at h
        subst h
        exact ⟨a, rfl, hp, fun j b hj => absurd hj (by omega)⟩
      · simp [firstIdx, hp] at h
        rcases h with ⟨i', hi', rfl⟩
        rcases ih i' hi' with ⟨b, hb, hpb, hfirst⟩
        refine ⟨b, by simpa using hb, hpb, ?_⟩
        intro j c hj hc
        cases j with
        | zero =>
            simp at hc
            subst hc
            simpa using hp
        | succ j' =>
            exact hfirst j' c (by omega) (by simpa using hc)

/-- `firstIdx` finds an index when some member satisfies the predicate. -/
theorem firstIdx_isSome_of_mem {α : Type} (p : α → Bool) :
    ∀ (l : List α) (a : α), a ∈ l → p a = true →
      ∃ i, firstIdx p l = some i := by
  intro l
  induction l with
  | nil => intro a ha; simp at ha
  | cons b t ih =>
      intro a ha hp
      by_cases hb : p b = true
      · exact ⟨0, by simp [firstIdx, hb]⟩
      · rcases List.mem_cons.mp ha with rfl | hat
        · exact absurd hp hb
        · rcases ih a hat hp with ⟨i, hi⟩
          exact ⟨i + 1, by simp [firstIdx, hb, hi]⟩

/-- `firstIdx` finds nothing when no member satisfies the predicate. -/
theorem firstIdx_eq_none {α : Type} (p : α → Bool) :
    ∀ (l : List α), (∀ a ∈ l, p a = false) → firstIdx p l = none := by
  intro l
  induction l with
  | nil => intro _; rfl
  | cons b t ih =>
      intro h
      simp [firstIdx, h b (List.mem_cons_self b t), ih fun a ha =>
        h a (List.mem_cons_of_mem b ha)]

/-- Whatever `findPatternMatch` returns is an element of the header list. -/
theorem findPatternMatch_mem (headers : List String)
    (test : String → String → Bool) :
    ∀ (ps : List String) (h : String),
      findPatternMatch headers (headers.map normalizeHeader) test ps = some h →
      h ∈ headers := by
  intro ps
  induction ps with
  | nil => intro h hfind; simp [findPatternMatch] at hfind
  | cons p ps ih =>
      intro h hfind
      unfold findPatternMatch at hfind
      revert hfind
      split
      · intro hfind
        exact List.get?_mem hfind
      · intro hfind
        exact ih h hfind

/-- Whatever `findPatternMatch` returns matches one of the patterns (under
the normalized form of the returned header). -/
theorem findPatternMatch_matches (headers : List String)
    (test : String → String → Bool) :
    ∀ (ps : List String) (h : String),
      findPatternMatch headers (headers.map normalizeHeader) test ps = some h →
      ∃ p ∈ ps, test (normalizeHeader h) p = true := by
  intro ps
  induction ps with
  | nil => intro h hfind; simp [findPatternMatch] at hfind
  | cons p ps ih =>
      intro h hfind
      unfold findPatternMatch at hfind
      revert hfind
      split
      · rename_i i hidx
        intro hfind
        rcases firstIdx_eq_some _ _ _ hidx with ⟨nh, hnh, htest, _⟩
        rw [List.get?_map, hfind] at hnh
        simp at hnh
        refine ⟨p, List.mem_cons_self p ps, ?_⟩
        rw [hnh]
        exact htest
      · intro hfind
        rcases ih h hfind with ⟨q, hq, ht⟩
        exact ⟨q, List.mem_cons_of_mem p hq, ht⟩

/-- `findPatternMatch` succeeds when some pattern matches some header. -/
theorem findPatternMatch_isSome (headers : List String)
    (test : String → String → Bool) :
    ∀ (ps : List String),
      (∃ p ∈ ps, ∃ h ∈ headers, test (normalizeHeader h) p = true) →
      ∃ h, findPatternMatch headers (headers.map normalizeHeader) test ps =
        some h := by
  intro ps
  induction ps with
  | nil => intro h; simp at h
  | cons p ps ih =>
      intro hex
      by_cases hp : ∃ h ∈ headers, test (normalizeHeader h) p = true
      · rcases hp with ⟨a, ha, hta⟩
        rcases firstIdx_isSome_of_mem (fun nh => test nh p)
            (headers.map normalizeHeader) (normalizeHeader a)
            (List.mem_map_of_mem normalizeHeader ha) hta with ⟨i, hi⟩
        rcases firstIdx_eq_some _ _ _ hi with ⟨nh, hnh, _, _⟩
        rw [List.get?_map] at hnh
        rcases Option.map_eq_some'.mp hnh with ⟨h, hh, _⟩
        refine ⟨h, ?_⟩
        unfold findPatternMatch
        rw [hi]
        exact hh
      · rcases hex with ⟨q, hq, a, ha, hta⟩
        rcases List.mem_cons.mp hq with rfl | hqs
        · exact absurd ⟨a, ha, hta⟩ hp
        · have hnone : firstIdx (fun nh => test nh p)
              (headers.map normalizeHeader) = none := by
            apply firstIdx_eq_none
            intro nh hnh
            rcases List.mem_map.mp hnh with ⟨b, hb, rfl⟩
            by_cases htb : test (normalizeHeader b) p = true
            · exact absurd ⟨b, hb, htb⟩ hp
            · simpa using htb
          rcases ih ⟨q, hqs, a, ha, hta⟩ with ⟨h, hh⟩
          exact ⟨h, by simp [findPatternMatch, hnone, hh]⟩

/-- `findPatternMatch` fails when no pattern matches any header. -/
theorem findPatternMatch_eq_none (headers : List String)
    (test : String → String → Bool) :
    ∀ (ps : List String),
      (∀ p ∈ ps, ∀ h ∈ headers, test (normalizeHeader h) p = false) →
      findPatternMatch headers (headers.map normalizeHeader) test ps = none := by
  intro ps
  induction ps with
  | nil => intro _; rfl
  | cons p ps ih =>
      intro hno
      have hnone : firstIdx (fun nh => test nh p)
          (headers.map normalizeHeader) = none := by
        apply firstIdx_eq_none
        intro nh hnh
        rcases List.mem_map.mp hnh with ⟨b, hb, rfl⟩
        exact hno p (List.mem_cons_self p ps) b hb
      simp [findPatternMatch, hnone,
        ih fun q hq => hno q (List.mem_cons_of_mem p hq)]

/-- Tie-breaking of `findPatternMatch`: when every pattern before `p` has no
matching header and `p` has one, the result is the first header (in header
order) matching `p`. -/
theorem findPatternMatch_first (headers : List String)
    (test : String → String → Bool) :
    ∀ (pre : List String) (p : String) (post : List String),
      (∀ q ∈ pre, ∀ h ∈ headers, test (normalizeHeader h) q = false) →
      (∃ h ∈ headers, test (normalizeHeader h) p = true) →
      ∃ i h, headers.get? i = some h ∧
        findPatternMatch headers (headers.map normalizeHeader) test
          (pre ++ p :: post) = some h ∧
        test (normalizeHeader h) p = true ∧
        ∀ j h', j < i → headers.get? j = some h' →
          test (normalizeHeader h') p = false := by
  intro pre
  induction pre with
  | nil =>
      intro p post _ hex
      rcases hex with ⟨a, ha, hta⟩
      rcases firstIdx_isSome_of_mem (fun nh => test nh p)
          (headers.map normalizeHeader) (normalizeHeader a)
          (List.mem_map_of_mem normalizeHeader ha) hta with ⟨i, hi⟩
      rcases firstIdx_eq_some _ _ _ hi with ⟨nh, hnh, htest, hfirst⟩
      rw [List.get?_map] at hnh
      rcases Option.map_eq_some'.mp hnh with ⟨h, hh, hnorm⟩
      refine ⟨i, h, hh, ?_, ?_, ?_⟩
      · unfold findPatternMatch
        simp only [List.nil_append]
        rw [hi]
        exact hh
      · rw [hnorm]
        exact htest
      · intro j h' hj hh'
        have := hfirst j (normalizeHeader h') hj
          (by rw [List.get?_map, hh']; rfl)
        simpa using this
  | cons q pre ih =>
      intro p post hno hex
      have hnone : firstIdx (fun nh => test nh q)
          (headers.map normalizeHeader) = none := by
        apply firstIdx_eq_none
        intro nh hnh
        rcases List.mem_map.mp hnh with ⟨b, hb, rfl⟩
        exact hno q (List.mem_cons_self q pre) b hb
      rcases ih p post (fun r hr => hno r (List.mem_cons_of_mem q hr)) hex with
        ⟨i, h, hh, hfind, htest, hfirst⟩
      exact ⟨i, h, hh, by simp [findPatternMatch, hnone, hfind], htest, hfirst⟩

/-- `findBestMatch` as the exact-match tier with the substring tier as
fallback. -/
theorem findBestMatch_eq (headers patterns : List String) :
    findBestMatch headers patterns =
      (findPatternMatch headers (headers.map normalizeHeader)
          (fun h p => h == p) patterns).or
        (findPatternMatch headers (headers.map normalizeHeader)
          (fun h p => hasSubstring h.data p.data) patterns) := by
  unfold findBestMatch
  dsimp only
  cases findPatternMatch headers (List.map normalizeHeader headers)
      (fun h p => h == p) patterns <;> rfl

/-- C8: `autoDetectColumns` returns, for each of the four target fields,
either `none` or an element of the input header list (the exact original
header string); an exact case/trim-insensitive match to any pattern takes
priority over substring containment; and among substring matches the first
pattern in the pattern list wins, then the first matching header in header
order. -/
theorem autoDetectColumns_spec (headers : List String) :
    autoDetectColumns headers =
      (findBestMatch headers zipPatterns, findBestMatch headers streetPatterns,
       findBestMatch headers cityPatterns, findBestMatch headers countryPatterns) ∧
    (∀ patterns h, findBestMatch headers patterns = some h → h ∈ headers) ∧
    (∀ patterns, (∃ p ∈ patterns, ∃ h ∈ headers, normalizeHeader h = p) →
      ∃ h, findBestMatch headers patterns = some h ∧ h ∈ headers ∧
        ∃ p ∈ patterns, normalizeHeader h = p) ∧
    (∀ pre p post,
      (∀ q ∈ pre ++ p :: post, ∀ h ∈ headers, normalizeHeader h ≠ q) →
      (∀ q ∈ pre, ∀ h ∈ headers,
        hasSubstring (normalizeHeader h).data q.data = false) →
      (∃ h ∈ headers, hasSubstring (normalizeHeader h).data p.data = true) →
      ∃ i h, headers.get? i = some h ∧
        findBestMatch headers (pre ++ p :: post) = some h ∧
        hasSubstring (normalizeHeader h).data p.data = true ∧
        ∀ j h', j < i → headers.get? j = some h' →
          hasSubstring (normalizeHeader h').data p.data = false) := by
  refine ⟨rfl, ?_, ?_, ?_⟩
  · intro patterns h hfind
    rw [findBestMatch_eq] at hfind
    cases hcase : findPatternMatch headers (List.map normalizeHeader headers)
        (fun h p => h == p) patterns with
    | some h2 =>
        rw [hcase] at hfind
        simp only [Option.or] at hfind
        cases hfind
        exact findPatternMatch_mem headers _ patterns _ hcase
    | none =>
        rw [hcase] at hfind
        simp only [Option.or] at hfind
        exact findPatternMatch_mem headers _ patterns h hfind
  · intro patterns hex
    have hex' : ∃ p ∈ patterns, ∃ h ∈ headers,
        (fun nh q => nh == q) (normalizeHeader h) p = true := by
      rcases hex with ⟨p, hp, h, hh, heq⟩
      exact ⟨p, hp, h, hh, by simp [heq]⟩
    rcases findPatternMatch_isSome headers (fun nh q => nh == q) patterns hex'
      with ⟨h, hfind⟩
    refine ⟨h, ?_, findPatternMatch_mem headers _ patterns h hfind, ?_⟩
    · rw [findBestMatch_eq, hfind]
      rfl
    · rcases findPatternMatch_matches headers _ patterns h hfind with ⟨p, hp, ht⟩
      exact ⟨p, hp, by simpa using ht⟩
  · intro pre p post hnoexact hnopre hex
    have hnone : findPatternMatch headers (headers.map normalizeHeader)
        (fun nh q => nh == q) (pre ++ p :: post) = none := by
      apply findPatternMatch_eq_none
      intro q hq h hh
      simpa using hnoexact q hq h hh
    rcases findPatternMatch_first headers
        (fun nh q => hasSubstring nh.data q.data) pre p post hnopre hex with
      ⟨i, h, hh, hfind, htest, hfirst⟩
    refine ⟨i, h, hh, ?_, htest, hfirst⟩
    rw [findBestMatch_eq, hnone, hfind]
    rfl

/-- Witness for `autoDetectColumns_spec` at the German header triple: the
detector populates ZIP, street and city with the exact original headers via
exact matches, and the membership and priority clauses apply concretely. -/
theorem autoDetectColumns_spec_witness :
    autoDetectColumns ["PLZ", "Straße", "Ort"] =
      (findBestMatch ["PLZ", "Straße", "Ort"] zipPatterns,
       findBestMatch ["PLZ", "Straße", "Ort"] streetPatterns,
       findBestMatch ["PLZ", "Straße", "Ort"] cityPatterns,
       findBestMatch ["PLZ", "Straße", "Ort"] countryPatterns) ∧
    (∃ h, findBestMatch ["PLZ", "Straße", "Ort"] zipPatterns = some h ∧
      h ∈ ["PLZ", "Straße", "Ort"] ∧
      ∃ p ∈ zipPatterns, normalizeHeader h = p) :=
  ⟨(autoDetectColumns_spec ["PLZ", "Straße", "Ort"]).1,
   (autoDetectColumns_spec ["PLZ", "Straße", "Ort"]).2.2.1 zipPatterns
     ⟨"plz", by decide, "PLZ", by decide, by decide⟩⟩

/-! ## Claims C5 and C9: the feature-collection assembler -/

/-- Reading back the key just written by `setKey`. -/
theorem lookupKey_setKey_self {β : Type} (props : List (String × β))
    (k : String) (v : β) : lookupKey (setKey props k v) k = some v := by
  induction props with
  | nil => simp [setKey, lookupKey]
  | cons kv t ih =>
      by_cases h : kv.1 = k
      · simp [setKey, h, lookupKey]
      · simp [setKey, h, lookupKey, ih]

/-- `setKey` does not disturb other keys. -/
theorem lookupKey_setKey_ne {β : Type} (props : List (String × β))
    (k c : String) (v : β) (h : k ≠ c) :
    lookupKey (setKey props k v) c = lookupKey props c := by
  induction props with
  | nil => simp [setKey, lookupKey, h]
  | cons kv t ih =>
      by_cases hk : kv.1 = k
      · simp [setKey, hk, lookupKey, h]
      · simp [setKey, hk, lookupKey, ih]

/-- The metadata fold of `featureOf` never touches keys outside the
metadata column list. -/
theorem metaFold_skip (row : CSVRow) :
    ∀ (mc : List String) (props : List (String × JsonValue)) (c : String),
      c ∉ mc →
      lookupKey (mc.foldl
        (fun props column =>
          match lookupKey row column with
          | some value => setKey props column (coerceMeta value)
          | none => props) props) c = lookupKey props c := by
  intro mc
  induction mc with
  | nil => intro props c _; rfl
  | cons d mc ih =>
      intro props c hc
      have hdc : d ≠ c := fun h => hc (h ▸ List.mem_cons_self d mc)
      have hcm : c ∉ mc := fun h => hc (List.mem_cons_of_mem d h)
      simp only [List.foldl_cons]
      rw [ih _ c hcm]
      cases hl : lookupKey row d with
      | none => rfl
      | some v => exact lookupKey_setKey_ne _ _ _ _ hdc

/-- The metadata fold of `featureOf` stores the coerced value of every
metadata column present in the row. -/
theorem metaFold_lookup (row : CSVRow) :
    ∀ (mc : List String) (props : List (String × JsonValue)) (c : String)
      (v : String), lookupKey row c = some v → c ∈ mc →
      lookupKey (mc.foldl
        (fun props column =>
          match lookupKey row column with
          | some value => setKey props column (coerceMeta value)
          | none => props) props) c = some (coerceMeta v) := by
  intro mc
  induction mc with
  | nil => intro props c v _ hc; simp at hc
  | cons d mc ih =>
      intro props c v hv hc
      simp only [List.foldl_cons]
      by_cases hcm : c ∈ mc
      · exact ih _ c v hv hcm
      · have hdc : d = c := by
          rcases List.mem_cons.mp hc with h | h
          · exact h.symm
          · exact absurd h hcm
        subst hdc
        rw [metaFold_skip row mc _ d hcm, hv, lookupKey_setKey_self]

/-- Characterization of `featureOf` on a row with a geocode result: it
succeeds, the geometry coordinates are the `[lon, lat]` swap of the
result's latitude/longitude, and every metadata column other than the
reserved `name`/`description` keys carries its coerced original value. -/
theorem featureOf_ok (mc : List String) (addr : ProcessedAddress)
    (g : GeocodeResult) (hg : addr.geocodeResult = some g) :
    ∃ f, featureOf mc addr = .ok f ∧ f.coordinates = (g.lon, g.lat) ∧
      ∀ c ∈ mc, c ≠ "name" → c ≠ "description" →
        ∀ v, lookupKey addr.originalData c = some v →
          lookupKey f.properties c = some (coerceMeta v) := by
  unfold featureOf
  rw [hg]
  refine ⟨_, rfl, rfl, ?_⟩
  intro c hc hname hdesc v hv
  dsimp only
  rw [lookupKey_setKey_ne _ _ _ _ (fun h => hdesc h.symm),
    lookupKey_setKey_ne _ _ _ _ (fun h => hname h.symm)]
  exact metaFold_lookup addr.originalData mc [] c v hv hc

/-- `List.mapM` of `featureOf` over rows that all carry a geocode result
succeeds and relates rows to features pointwise. -/
theorem mapM_featureOf_ok (mc : List String) :
    ∀ (l : List ProcessedAddress),
      (∀ a ∈ l, a.geocodeResult.isSome) →
      ∃ fs, l.mapM (featureOf mc) = .ok fs ∧
        List.Forall₂ (fun a f => featureOf mc a = .ok f) l fs := by
  intro l
  induction l with
  | nil => intro _; exact ⟨[], by rw [List.mapM_nil]; rfl, List.Forall₂.nil⟩
  | cons a l ih =>
      intro hall
      rcases Option.isSome_iff_exists.mp
        (hall a (List.mem_cons_self a l)) with ⟨g, hg⟩
      rcases featureOf_ok mc a g hg with ⟨f, hf, _, _⟩
      rcases ih (fun b hb => hall b (List.mem_cons_of_mem a hb)) with
        ⟨fs, hfs, hrel⟩
      refine ⟨f :: fs, ?_, List.Forall₂.cons hf hrel⟩
      rw [List.mapM_cons, hf, hfs]
      rfl

/-- Every row passing the `convertToGeoJSON` filter has a geocode result. -/
theorem includedRow_isSome (a : ProcessedAddress)
    (h : includedRow a = true) : a.geocodeResult.isSome := by
  have h2 := h
  simp only [includedRow, Bool.and_eq_true] at h2
  exact h2.1

/-- `convertToGeoJSON` always succeeds (the defensive throw inside the map
is unreachable after the filter) and relates the filtered rows to the
emitted features pointwise through `featureOf`. -/
theorem convertToGeoJSON_ok (rows : List ProcessedAddress)
    (mc : List String) :
    ∃ fc, convertToGeoJSON rows mc = .ok fc ∧
      List.Forall₂ (fun a f => featureOf mc a = .ok f)
        (rows.filter includedRow) fc.features := by
  rcases mapM_featureOf_ok mc (rows.filter includedRow)
      (fun a ha => includedRow_isSome a (List.of_mem_filter ha)) with
    ⟨fs, hfs, hrel⟩
  refine ⟨{ features := fs }, ?_, hrel⟩
  unfold convertToGeoJSON
  rw [hfs]
  rfl

/-- C5 (counterexample to the claim as stated): a row whose `error` field is
set to the empty string HAS an error, yet `convertToGeoJSON` includes it —
the source filter `addr.geocodeResult && !addr.error` treats the empty
string as falsy. The claimed "exactly the rows with a GeocodeResult and no
error" filter would exclude this row. -/
theorem convertToGeoJSON_empty_error_cex :
    (convertToGeoJSON
        [{ originalData := [], geocodeResult := some { lat := 1, lon := 2 },
           coordinates := none, error := some "" }] []).toOption.map
        (fun fc => fc.features.length) = some 1 ∧
    ({ originalData := [], geocodeResult := some { lat := 1, lon := 2 },
       coordinates := none, error := some "" } : ProcessedAddress).error ≠
      none ∧
    ([({ originalData := [], geocodeResult := some { lat := 1, lon := 2 },
         coordinates := none, error := some "" } : ProcessedAddress)].filter
      (fun a => a.geocodeResult.isSome && (a.error == none))).length = 0 := by
  refine ⟨?_, by decide, by decide⟩
  rfl

/-- Pointwise coordinate swap for the rows/features relation produced by
`convertToGeoJSON`. -/
theorem forall2_coord_of (mc : List String) :
    ∀ (l : List ProcessedAddress) (fs : List Feature),
      (∀ a ∈ l, a.geocodeResult.isSome) →
      List.Forall₂ (fun a f => featureOf mc a = .ok f) l fs →
      List.Forall₂ (fun a f => ∃ g, a.geocodeResult = some g ∧
        f.coordinates = (g.lon, g.lat)) l fs := by
  intro l fs hmem hrel
  revert hmem
  induction hrel with
  | nil => intro _; exact List.Forall₂.nil
  | cons hab hrest ih =>
      rename_i a f l fs
      intro hmem
      rcases Option.isSome_iff_exists.mp
        (hmem a (List.mem_cons_self a l)) with ⟨g, hg⟩
      rcases featureOf_ok mc a g hg with ⟨f2, hf2, hcoord, _⟩
      rw [hab] at hf2
      cases hf2
      exact List.Forall₂.cons ⟨g, hg, hcoord⟩
        (ih (fun b hb => hmem b (List.mem_cons_of_mem a hb)))

/-- C5 (amended): `convertToGeoJSON` includes exactly the rows with a
geocode result and no truthy error (an empty-string error counts as no
error, per JS falsiness); every included row's feature has geometry
coordinates `(lon, lat)` — the swap of the result's latitude/longitude —
and `processAddressRow` stores the internal pair as `(lat, lon)`, so the
feature pair is the swap of the internal pair. -/
theorem convertToGeoJSON_filter_swap (rows : List ProcessedAddress)
    (mc : List String) :
    ∃ fc, convertToGeoJSON rows mc = .ok fc ∧
      fc.features.length = (rows.filter includedRow).length ∧
      List.Forall₂ (fun a f => ∃ g, a.geocodeResult = some g ∧
          f.coordinates = (g.lon, g.lat))
        (rows.filter includedRow) fc.features ∧
      (∀ a ∈ rows, a.geocodeResult.isSome → a.error = none →
        a ∈ rows.filter includedRow) ∧
      (∀ a ∈ rows.filter includedRow,
        a.geocodeResult.isSome ∧ ¬ strTruthy a.error) ∧
      (∀ (geo : String → GeoCall) (r : CSVRow) (m : ColumnMapping)
          (g : GeocodeResult),
        (processAddressRow geo r m).1.geocodeResult = some g →
        (processAddressRow geo r m).1.coordinates = some (g.lat, g.lon)) := by
  rcases convertToGeoJSON_ok rows mc with ⟨fc, hfc, hrel⟩
  refine ⟨fc, hfc, ?_, ?_, ?_, ?_, ?_⟩
  · exact (List.Forall₂.length_eq hrel).symm
  · exact forall2_coord_of mc _ _
      (fun a ha => includedRow_isSome a (List.of_mem_filter ha)) hrel
  · intro a ha hsome herr
    apply List.mem_filter_of_mem ha
    unfold includedRow
    rw [herr]
    simp [hsome, strTruthy]
  · intro a ha
    have h := List.of_mem_filter ha
    refine ⟨includedRow_isSome a h, ?_⟩
    simp only [includedRow, Bool.and_eq_true] at h
    simpa using h.2
  · intro geo r m g hg
    revert hg
    simp only [processAddressRow]
    split
    · split <;> intro hg <;> simp_all
    · intro hg
      simp at hg

/-- The successful-row input of the C5 witness. -/
def swapRowOk : ProcessedAddress :=
  { originalData := [], geocodeResult := some { lat := 40, lon := -75 },
    coordinates := some (40, -75), error := none }

/-- The failed-row input of the C5 witness. -/
def swapRowErr : ProcessedAddress :=
  { originalData := [], geocodeResult := none, coordinates := none,
    error := some "Empty address" }

/-- Witness for `convertToGeoJSON_filter_swap` on a concrete mixed list:
one successful row (included, coordinates swapped) and one error row
(excluded). -/
theorem convertToGeoJSON_filter_swap_witness :
    ∃ fc, convertToGeoJSON [swapRowOk, swapRowErr] [] = .ok fc ∧
      fc.features.length = 1 ∧
      ∃ f, fc.features = [f] ∧ f.coordinates = (-75, 40) := by
  rcases convertToGeoJSON_filter_swap [swapRowOk, swapRowErr] [] with
    ⟨fc, hfc, hlen, hrel, _, _, _⟩
  have hfilter : [swapRowOk, swapRowErr].filter includedRow = [swapRowOk] := by
    decide
  rw [hfilter] at hlen hrel
  obtain ⟨fs⟩ := fc
  refine ⟨⟨fs⟩, hfc, by rw [hlen]; rfl, ?_⟩
  cases hrel with
  | cons hab hrest =>
      cases hrest
      rename_i f
      rcases hab with ⟨g, hg, hcoord⟩
      refine ⟨f, rfl, ?_⟩
      have hgval : g = { lat := 40, lon := -75 } := by
        simp [swapRowOk] at hg
        exact hg.symm
      rw [hcoord, hgval]

/-- The name-collision row of the C9 counterexample: a metadata column
literally called "name" holding the numeric-looking value "42". -/
def nameCollisionRow : ProcessedAddress :=
  { originalData := [("name", "42")],
    geocodeResult := some { lat := 1, lon := 2 },
    coordinates := none, error := none }

/-- The feature that `convertToGeoJSON` emits for `nameCollisionRow` with
metadata column "name". -/
def nameCollisionFeature : Feature :=
  { coordinates := (2, 1),
    properties := [("name", JsonValue.str "42"),
                   ("description", JsonValue.str "<strong>name:</strong> 42")] }

/-- C9 (counterexample to the claim as stated): for the metadata column
"name" with value "42" — which parses as numeric — the emitted feature's
`name` property is the computed uMap title, the string "42", and not a
number: `convertToGeoJSON` overwrites the `name` (and `description`) keys
after the metadata coercion. -/
theorem convertToGeoJSON_name_overwrite_cex :
    (jsNumber "42").isSome = true ∧
    ¬ "42".jsTrim = "" ∧
    convertToGeoJSON [nameCollisionRow] ["name"] =
      .ok { features := [nameCollisionFeature] } ∧
    lookupKey nameCollisionFeature.properties "name" =
      some (JsonValue.str "42") ∧
    ∀ q : Rat, JsonValue.str "42" ≠ JsonValue.num q := by
  refine ⟨by decide, by decide, ?_, by decide, fun q h => JsonValue.noConfusion h⟩
  rfl

/-- Pointwise metadata-property correctness for the rows/features relation
produced by `convertToGeoJSON`. -/
theorem forall2_props_of (mc : List String) :
    ∀ (l : List ProcessedAddress) (fs : List Feature),
      (∀ a ∈ l, a.geocodeResult.isSome) →
      List.Forall₂ (fun a f => featureOf mc a = .ok f) l fs →
      List.Forall₂ (fun a f => ∀ c ∈ mc, c ≠ "name" → c ≠ "description" →
        ∀ v, lookupKey a.originalData c = some v →
          lookupKey f.properties c = some (coerceMeta v)) l fs := by
  intro l fs hmem hrel
  revert hmem
  induction hrel with
  | nil => intro _; exact List.Forall₂.nil
  | cons hab hrest ih =>
      rename_i a f l fs
      intro hmem
      rcases Option.isSome_iff_exists.mp
        (hmem a (List.mem_cons_self a l)) with ⟨g, hg⟩
      rcases featureOf_ok mc a g hg with ⟨f2, hf2, _, hprops⟩
      rw [hab] at hf2
      cases hf2
      exact List.Forall₂.cons hprops
        (ih (fun b hb => hmem b (List.mem_cons_of_mem a hb)))

/-- C9 (amended): for every requested metadata column other than the
reserved keys `name` and `description`, `convertToGeoJSON` writes into the
feature's properties the number `jsNumber v` exactly when the whole trimmed
value parses as numeric (`jsNumber v` is defined and the trimmed value is
nonempty), and otherwise the unchanged string; in particular the empty
string stays the empty string and is never coerced to `0`. -/
theorem convertToGeoJSON_metadata (rows : List ProcessedAddress)
    (mc : List String) :
    (∃ fc, convertToGeoJSON rows mc = .ok fc ∧
      List.Forall₂ (fun a f => ∀ c ∈ mc, c ≠ "name" → c ≠ "description" →
          ∀ v, lookupKey a.originalData c = some v →
            lookupKey f.properties c = some (coerceMeta v))
        (rows.filter includedRow) fc.features) ∧
    (∀ v n, jsNumber v = some n → ¬ v.jsTrim = "" → coerceMeta v = .num n) ∧
    (∀ v, jsNumber v = none → coerceMeta v = .str v) ∧
    (∀ v, v.jsTrim = "" → coerceMeta v = .str v) ∧
    coerceMeta "" = .str "" := by
  refine ⟨?_, ?_, ?_, ?_, ?_⟩
  · rcases convertToGeoJSON_ok rows mc with ⟨fc, hfc, hrel⟩
    exact ⟨fc, hfc, forall2_props_of mc _ _
      (fun a ha => includedRow_isSome a (List.of_mem_filter ha)) hrel⟩
  · intro v n hn htrim
    unfold coerceMeta
    rw [hn]
    simp [htrim]
  · intro v hn
    unfold coerceMeta
    rw [hn]
  · intro v htrim
    unfold coerceMeta
    cases hn : jsNumber v with
    | none => rfl
    | some n => simp [htrim]
  · show coerceMeta "" = .str ""
    unfold coerceMeta
    cases hn : jsNumber "" with
    | none => rfl
    | some n => simp [show "".jsTrim = "" by decide]

/-- Witness for `convertToGeoJSON_metadata`: the coercion clauses applied
at "123" (numeric: stored as the parsed number), "abc" (kept as string) and
"" (stays the empty string), and the feature-property clause at a concrete
one-row batch with metadata column "pop". -/
theorem convertToGeoJSON_metadata_witness :
    (∃ n, jsNumber "123" = some n ∧ coerceMeta "123" = .num n) ∧
    coerceMeta "abc" = .str "abc" ∧
    coerceMeta "" = .str "" ∧
    (∃ fc, convertToGeoJSON
        [{ originalData := [("pop", "123")],
           geocodeResult := some { lat := 1, lon := 2 },
           coordinates := none, error := none }] ["pop"] = .ok fc ∧
      List.Forall₂ (fun a f => ∀ c ∈ ["pop"], c ≠ "name" → c ≠ "description" →
          ∀ v, lookupKey a.originalData c = some v →
            lookupKey f.properties c = some (coerceMeta v))
        ([{ originalData := [("pop", "123")],
            geocodeResult := some { lat := 1, lon := 2 },
            coordinates := none, error := none }].filter includedRow)
        fc.features) := by
  refine ⟨?_, ?_, ?_, ?_⟩
  · have hsome : (jsNumber "123").isSome = true := by decide
    cases hn : jsNumber "123" with
    | none => rw [hn] at hsome; cases hsome
    | some n =>
        exact ⟨n, rfl, (convertToGeoJSON_metadata [] []).2.1 "123" n hn
          (by decide)⟩
  · have hnone : jsNumber "abc" = none := by
      have h : (jsNumber "abc").isSome = false := by decide
      cases hn : jsNumber "abc" with
      | none => rfl
      | some n => rw [hn] at h; cases h
    exact (convertToGeoJSON_metadata [] []).2.2.1 "abc" hnone
  · exact (convertToGeoJSON_metadata [] []).2.2.2.2
  · exact (convertToGeoJSON_metadata
      [{ originalData := [("pop", "123")],
         geocodeResult := some { lat := 1, lon := 2 },
         coordinates := none, error := none }] ["pop"]).1

/-! ## Claim C6: the failure exporter round-trip -/

/-- Unfolding `parseQuoted` at an opening quote. -/
theorem parseQuoted_quote (rest acc : List Char) :
    parseQuoted ('"' :: rest) acc =
      match rest with
      | '"' :: rest' => parseQuoted rest' ('"' :: acc)
      | _ => (acc.reverse, rest) := by
  cases rest with
  | nil => rfl
  | cons r t =>
      by_cases h : r = '"'
      · subst h
        rfl
      · rw [parseQuoted.eq_def]
        split
        · simp_all
        · simp_all
        · rename_i hne heq
          injection heq with h1 h2
          exact absurd h1.symm hne

/-- Unfolding `parseQuoted` at an ordinary character. -/
theorem parseQuoted_other (c : Char) (rest acc : List Char) (h : c ≠ '"') :
    parseQuoted (c :: rest) acc = parseQuoted rest (c :: acc) := by
  rw [parseQuoted.eq_def]
  split <;> simp_all

/-- Unfolding `escInner` at a quote. -/
theorem escInner_quote (t : List Char) :
    escInner ('"' :: t) = '"' :: '"' :: escInner t := rfl

/-- Unfolding `escInner` at an ordinary character. -/
theorem escInner_other (c : Char) (t : List Char) (h : c ≠ '"') :
    escInner (c :: t) = c :: escInner t := by
  rw [escInner.eq_def]
  split <;> simp_all

/-- `parseQuoted` on the encoded inside of a quoted field followed by the
closing quote: it recovers the field exactly and stops right after the
quote, provided the continuation does not begin with another quote (true
for a delimiter, a line break, or the end of input). -/
theorem parseQuoted_escInner (s : List Char) :
    ∀ (acc rest : List Char), rest.head? ≠ some '"' →
      parseQuoted (escInner s ++ '"' :: rest) acc = (acc.reverse ++ s, rest) := by
  induction s with
  | nil =>
      intro acc rest hrest
      show parseQuoted ('"' :: rest) acc = _
      rw [parseQuoted_quote]
      cases rest with
      | nil => simp
      | cons r t =>
          have hr : r ≠ '"' := by simpa using hrest
          split <;> simp_all
  | cons c t ih =>
      intro acc rest hrest
      by_cases hc : c = '"'
      · subst hc
        rw [escInner_quote, List.cons_append, List.cons_append,
          parseQuoted_quote]
        show parseQuoted (escInner t ++ '"' :: rest) ('"' :: acc) = _
        rw [ih _ rest hrest]
        simp
      · rw [escInner_other c t hc, List.cons_append,
          parseQuoted_other c _ acc hc, ih (c :: acc) rest hrest]
        simp

/-- Unfolding `parseAux` at the end of input. -/
theorem parseAux_nil (fld : List Char) (row : List (List Char))
    (acc : List (List (List Char))) :
    parseAux [] fld row acc = ((fld.reverse :: row).reverse :: acc).reverse := by
  rw [parseAux.eq_def]

/-- Unfolding `parseAux` at a delimiter. -/
theorem parseAux_comma (rest fld : List Char) (row : List (List Char))
    (acc : List (List (List Char))) :
    parseAux (',' :: rest) fld row acc =
      parseAux rest [] (fld.reverse :: row) acc := by
  rw [parseAux.eq_def]
  rfl

/-- Unfolding `parseAux` at a `"\r\n"` row break. -/
theorem parseAux_crlf (rest fld : List Char) (row : List (List Char))
    (acc : List (List (List Char))) :
    parseAux ('\r' :: '\n' :: rest) fld row acc =
      parseAux rest [] [] ((fld.reverse :: row).reverse :: acc) := by
  rw [parseAux.eq_def]
  rfl

/-- Unfolding `parseAux` at an ordinary character. -/
theorem parseAux_other (c : Char) (rest fld : List Char)
    (row : List (List Char)) (acc : List (List (List Char)))
    (h1 : c ≠ ',') (h2 : c ≠ '\r') (h3 : c ≠ '\n') (h4 : c ≠ '"') :
    parseAux (c :: rest) fld row acc = parseAux rest (c :: fld) row acc := by
  rw [parseAux.eq_def]
  split <;> simp_all

/-- Unfolding `parseAux` at a quote opening a fresh field. -/
theorem parseAux_quote0 (rest : List Char) (row : List (List Char))
    (acc : List (List (List Char))) :
    parseAux ('"' :: rest) [] row acc =
      parseAux (parseQuoted rest []).2 (parseQuoted rest []).1.reverse
        row acc := by
  rw [parseAux.eq_def]
  rfl

/-- `List.intercalate` on a singleton. -/
theorem intercalate_one {α : Type} (sep x : List α) :
    List.intercalate sep [x] = x := by
  simp [List.intercalate]

/-- `List.intercalate` on two or more chunks. -/
theorem intercalate_two {α : Type} (sep x y : List α) (t : List (List α)) :
    List.intercalate sep (x :: y :: t) =
      x ++ sep ++ List.intercalate sep (y :: t) := by
  simp [List.intercalate, List.intersperse]

/-- The scanner consumes an unquoted (special-character-free) field into the
current accumulation. -/
theorem parseAux_plain (s : List Char) (hs : needsQuoteB s = false) :
    ∀ (rest fld : List Char) (row : List (List Char))
      (acc : List (List (List Char))),
      parseAux (s ++ rest) fld row acc =
        parseAux rest (s.reverse ++ fld) row acc := by
  induction s with
  | nil => intro rest fld row acc; simp
  | cons c t ih =>
      intro rest fld row acc
      have hc : (c = ',' || c = '"' || c = '\r' || c = '\n') = false := by
        rw [needsQuoteB, List.any_eq_false] at hs
        simpa using hs c (List.mem_cons_self c t)
      have ht : needsQuoteB t = false := by
        rw [needsQuoteB, List.any_eq_false] at *
        intro a ha
        exact hs a (List.mem_cons_of_mem c ha)
      simp only [Bool.or_eq_false_iff] at hc
      rw [List.cons_append,
        parseAux_other c (t ++ rest) fld row acc
          (by simpa using hc.1.1.1) (by simpa using hc.1.2)
          (by simpa using hc.2) (by simpa using hc.1.1.2),
        ih ht rest (c :: fld) row acc]
      simp

/-- The scanner consumes one encoded field (quoted or not), leaving the
field (reversed) as the current accumulation, provided the continuation
does not begin with a quote. -/
theorem parseAux_encodeField (s rest : List Char) (row : List (List Char))
    (acc : List (List (List Char))) (hrest : rest.head? ≠ some '"') :
    parseAux (encodeField s ++ rest) [] row acc =
      parseAux rest s.reverse row acc := by
  unfold encodeField
  by_cases hq : needsQuoteB s = true
  · rw [if_pos hq]
    rw [show ('"' :: (escInner s ++ ['"'])) ++ rest =
        '"' :: (escInner s ++ '"' :: rest) by simp]
    rw [parseAux_quote0, parseQuoted_escInner s [] rest hrest]
    simp
  · rw [if_neg hq]
    rw [parseAux_plain s (by simpa using hq) rest [] row acc]
    simp

/-- The scanner consumes one encoded record followed by a row break,
closing the record. -/
theorem parseAux_row_crlf (fs : List (List Char)) (hne : fs ≠ []) :
    ∀ (rest : List Char) (row : List (List Char))
      (acc : List (List (List Char))),
      parseAux (encodeRow fs ++ '\r' :: '\n' :: rest) [] row acc =
        parseAux rest [] [] ((fs.reverse ++ row).reverse :: acc) := by
  induction fs with
  | nil => exact absurd rfl hne
  | cons f fs ih =>
      intro rest row acc
      cases fs with
      | nil =>
          rw [show encodeRow [f] = encodeField f by
              simp [encodeRow, intercalate_one],
            parseAux_encodeField f _ row acc (by simp), parseAux_crlf]
          simp
      | cons f2 t =>
          rw [show encodeRow (f :: f2 :: t) =
              encodeField f ++ [','] ++ encodeRow (f2 :: t) by
              simp [encodeRow, intercalate_two],
            show (encodeField f ++ [','] ++ encodeRow (f2 :: t)) ++
                '\r' :: '\n' :: rest =
              encodeField f ++ ',' :: (encodeRow (f2 :: t) ++
                '\r' :: '\n' :: rest) by simp,
            parseAux_encodeField f _ row acc (by simp), parseAux_comma,
            ih (by simp) rest (f.reverse.reverse :: row) acc]
          simp

/-- The scanner consumes one encoded record at the end of the input,
finalizing. -/
theorem parseAux_row_eof (fs : List (List Char)) (hne : fs ≠ []) :
    ∀ (row : List (List Char)) (acc : List (List (List Char))),
      parseAux (encodeRow fs) [] row acc =
        ((fs.reverse ++ row).reverse :: acc).reverse := by
  induction fs with
  | nil => exact absurd rfl hne
  | cons f fs ih =>
      intro row acc
      cases fs with
      | nil =>
          rw [show encodeRow [f] = encodeField f by
              simp [encodeRow, intercalate_one],
            show encodeField f = encodeField f ++ [] by simp,
            parseAux_encodeField f _ row acc (by simp), parseAux_nil]
          simp
      | cons f2 t =>
          rw [show encodeRow (f :: f2 :: t) =
              encodeField f ++ ',' :: encodeRow (f2 :: t) by
              simp [encodeRow, intercalate_two],
            parseAux_encodeField f _ row acc (by simp), parseAux_comma,
            ih (by simp) (f.reverse.reverse :: row) acc]
          simp

/-- The scanner recovers a whole encoded table (every record nonempty). -/
theorem parseAux_table (t : List (List (List Char))) (hne : t ≠ [])
    (hrows : ∀ r ∈ t, r ≠ []) :
    ∀ acc, parseAux (encodeCSV t) [] [] acc = acc.reverse ++ t := by
  induction t with
  | nil => exact absurd rfl hne
  | cons r t ih =>
      intro acc
      cases t with
      | nil =>
          rw [show encodeCSV [r] = encodeRow r by
              simp [encodeCSV, intercalate_one],
            parseAux_row_eof r (hrows r (List.mem_cons_self r [])) [] acc]
          simp
      | cons r2 t2 =>
          rw [show encodeCSV (r :: r2 :: t2) =
              encodeRow r ++ '\r' :: '\n' :: encodeCSV (r2 :: t2) by
              simp [encodeCSV, intercalate_two],
            parseAux_row_crlf r (hrows r (List.mem_cons_self r _)) _ [] acc,
            ih (by simp)
              (fun x hx => hrows x (List.mem_cons_of_mem r hx))]
          simp

/-- `String.mk` of `String.data` is the identity. -/
theorem mk_data_eq (s : String) : (⟨s.data⟩ : String) = s := by
  cases s
  rfl

/-- The CSV round-trip at `String` level: re-parsing the serialized table
recovers it exactly, for a nonempty table whose records are all nonempty
(as is the case for the failure exporter's header-led tables). -/
theorem csvParse_csvUnparse (tbl : List (List String)) (hne : tbl ≠ [])
    (hrows : ∀ r ∈ tbl, r ≠ []) :
    csvParse (csvUnparse tbl) = tbl := by
  unfold csvParse csvUnparse
  rw [show (⟨encodeCSV (tbl.map (·.map String.data))⟩ : String).data =
      encodeCSV (tbl.map (·.map String.data)) from rfl]
  rw [parseAux_table (tbl.map (·.map String.data))
    (by simpa using hne)
    (by intro r hr
        rcases List.mem_map.mp hr with ⟨r0, hr0, rfl⟩
        simpa using hrows r0 hr0)]
  simp only [List.reverse_nil, List.nil_append, List.map_map]
  rw [show ((·.map (fun cs => (⟨cs⟩ : String))) ∘ (·.map String.data)) =
      (fun r : List String => r.map ((fun cs => (⟨cs⟩ : String)) ∘ String.data))
      from by funext r; simp [List.map_map]]
  rw [show ((fun cs => (⟨cs⟩ : String)) ∘ String.data) = fun s : String => s
      from by funext s; exact mk_data_eq s]
  simp

/-- Unfolding `dedupFirst` on a cons. -/
theorem dedupFirst_cons (c : String) (t : List String) :
    dedupFirst (c :: t) = c :: dedupFirst (t.filter fun x => x ≠ c) := by
  rw [dedupFirst.eq_def]

/-- The seen-set fold of `failedHeader` computes first-appearance
deduplication. -/
theorem foldl_dedup (l : List String) :
    ∀ acc : List String,
      l.foldl (fun allColumns key =>
        if key ∈ allColumns then allColumns else allColumns ++ [key]) acc =
      acc ++ dedupFirst (l.filter fun x => decide (x ∉ acc)) := by
  induction l with
  | nil => intro acc; rw [dedupFirst.eq_def]; simp
  | cons k t ih =>
      intro acc
      by_cases hk : k ∈ acc
      · rw [List.foldl_cons, if_pos hk, ih acc]
        congr 2
        simp [List.filter_cons, hk]
      · rw [List.foldl_cons, if_neg hk, ih (acc ++ [k])]
        have hfilter : (t.filter fun x => decide (x ∉ acc ++ [k])) =
            ((t.filter fun x => decide (x ∉ acc)).filter
              fun x => decide (x ≠ k)) := by
          rw [List.filter_filter]
          apply List.filter_congr
          intro x _
          by_cases h1 : x ∈ acc <;> by_cases h2 : x = k <;>
            simp [h1, h2]
        rw [hfilter, show (k :: t).filter (fun x => decide (x ∉ acc)) =
            k :: t.filter (fun x => decide (x ∉ acc)) by
            simp [List.filter_cons, hk],
          dedupFirst_cons]
        simp

/-- `failedHeader` is first-appearance deduplication of the concatenated
key streams of the failed rows. -/
theorem failedHeader_eq (rows : List ProcessedAddress) :
    failedHeader rows =
      dedupFirst (rows.flatMap fun a => a.originalData.map Prod.fst) := by
  unfold failedHeader
  rw [foldl_dedup _ []]
  simp only [List.nil_append]
  congr 1
  apply List.filter_eq_self.mpr
  intro a _
  simp

/-- Membership in `dedupFirst` is membership in the original list. -/
theorem mem_dedupFirst (x : String) :
    ∀ (l : List String), x ∈ dedupFirst l ↔ x ∈ l := by
  intro l
  induction l using dedupFirst.induct with
  | case1 => rw [dedupFirst.eq_def]
  | case2 c t ih =>
      rw [dedupFirst_cons]
      by_cases hx : x = c
      · simp [hx]
      · simp only [List.mem_cons, hx, false_or]
        rw [ih, List.mem_filter]
        simp [hx]

/-- `dedupFirst` has no duplicates. -/
theorem nodup_dedupFirst :
    ∀ (l : List String), (dedupFirst l).Nodup := by
  intro l
  induction l using dedupFirst.induct with
  | case1 => rw [dedupFirst.eq_def]; exact List.nodup_nil
  | case2 c t ih =>
      rw [dedupFirst_cons]
      refine List.Nodup.cons ?_ ih
      intro hmem
      have := (mem_dedupFirst c _).mp hmem
      rw [List.mem_filter] at this
      simpa using this.2

/-- A column appears in `failedHeader` exactly when some failed row's
original data has it. -/
theorem mem_failedHeader (rows : List ProcessedAddress) (c : String) :
    c ∈ failedHeader rows ↔ ∃ a ∈ rows, ∃ v, (c, v) ∈ a.originalData := by
  rw [failedHeader_eq, mem_dedupFirst, List.mem_flatMap]
  constructor
  · rintro ⟨a, ha, hc⟩
    rcases List.mem_map.mp hc with ⟨p, hp, rfl⟩
    exact ⟨a, ha, p.2, by simpa using hp⟩
  · rintro ⟨a, ha, v, hv⟩
    exact ⟨a, ha, List.mem_map.mpr ⟨(c, v), hv, rfl⟩⟩

/-- C6: `downloadFailedAddressesCSV` produces no output on an empty
selection; otherwise it emits a CSV whose header is the union of the failed
rows' original column names in first-appearance order (duplicate-free, with
no column that does not come from some row's original data — in particular
no fabricated error column), and whose data rows, re-parsed as CSV, yield
for every row and every header column exactly the row's original value,
with a missing column rendered as the empty cell. -/
theorem downloadFailedAddressesCSV_spec (rows : List ProcessedAddress) :
    (rows = [] → downloadFailedAddressesCSV rows = none) ∧
    (rows ≠ [] →
      ∃ s, downloadFailedAddressesCSV rows = some s ∧
        failedHeader rows =
          dedupFirst (rows.flatMap fun a => a.originalData.map Prod.fst) ∧
        (failedHeader rows).Nodup ∧
        (∀ c, c ∈ failedHeader rows ↔
          ∃ a ∈ rows, ∃ v, (c, v) ∈ a.originalData) ∧
        (failedHeader rows ≠ [] →
          csvParse s =
            failedHeader rows :: rows.map (rowCells (failedHeader rows)) ∧
          ∀ (i j : Nat) (a : ProcessedAddress) (c : String),
            rows.get? i = some a → (failedHeader rows).get? j = some c →
            ∃ r, (csvParse s).get? (i + 1) = some r ∧
              r.get? j = some ((lookupKey a.originalData c).getD ""))) := by
  constructor
  · intro h
    subst h
    rfl
  · intro hne
    refine ⟨csvUnparse (failedHeader rows ::
        rows.map (rowCells (failedHeader rows))), ?_,
      failedHeader_eq rows, failedHeader_eq rows ▸ nodup_dedupFirst _,
      fun c => mem_failedHeader rows c, ?_⟩
    · unfold downloadFailedAddressesCSV
      rw [if_neg (by simpa [List.isEmpty_iff] using hne)]
    · intro hhead
      have hrt := csvParse_csvUnparse
        (failedHeader rows :: rows.map (rowCells (failedHeader rows)))
        (by simp)
        (by intro r hr
            rcases List.mem_cons.mp hr with rfl | hr
            · exact hhead
            · rcases List.mem_map.mp hr with ⟨a, _, rfl⟩
              unfold rowCells
              simpa using hhead)
      refine ⟨hrt, ?_⟩
      intro i j a c hi hj
      refine ⟨rowCells (failedHeader rows) a, ?_, ?_⟩
      · rw [hrt]
        show (rows.map (rowCells (failedHeader rows))).get? i = _
        rw [List.get?_map, hi, Option.map_some']
      · unfold rowCells
        rw [List.get?_map, hj, Option.map_some']

/-- A failed row with a comma and quotes in a cell, for the C6 witness. -/
def exportRowA : ProcessedAddress :=
  { originalData := [("name", "Ann, \"A\""), ("city", "X")],
    geocodeResult := none, coordinates := none,
    error := some "Empty address" }

/-- A failed row with different columns, for the C6 witness. -/
def exportRowB : ProcessedAddress :=
  { originalData := [("zip", "1 2")],
    geocodeResult := none, coordinates := none,
    error := some "Address could not be found" }

/-- Witness for `downloadFailedAddressesCSV_spec`: two concrete failed rows
with different column sets and a cell containing a delimiter and quotes;
the header is the first-appearance union and the emitted CSV re-parses to
the header row plus one data row per failed row. -/
theorem downloadFailedAddressesCSV_spec_witness :
    failedHeader [exportRowA, exportRowB] = ["name", "city", "zip"] ∧
    ∃ s, downloadFailedAddressesCSV [exportRowA, exportRowB] = some s ∧
      csvParse s = failedHeader [exportRowA, exportRowB] ::
        [exportRowA, exportRowB].map
          (rowCells (failedHeader [exportRowA, exportRowB])) ∧
      (failedHeader [exportRowA, exportRowB]).Nodup := by
  rcases (downloadFailedAddressesCSV_spec [exportRowA, exportRowB]).2
      (by simp) with ⟨s, hs, _, hnd, _, hrt⟩
  rcases hrt (by decide) with ⟨hparse, _⟩
  exact ⟨by decide, s, hs, hparse, hnd⟩
